import Mathlib

/-!
# Socket relay server (`src/server.js`): shallow embedding

The server keeps two process-wide `Map`s, `onlineUsers` (userId -> socketId) and
`typingUsers` (userId -> {chatId, timestamp}), registers seven event handlers per
socket and runs a sweep over `typingUsers` every 5000 ms.

Modelling choices:

* JavaScript values received from clients are `JSVal`.  Objects carry a
  reference number so that `Map` key comparison (SameValueZero) is Lean
  equality; numbers are integers (no NaN, no fractions); arrays are not
  modelled.
* A `Map` is an insertion-ordered association list with pairwise distinct
  keys (`JSMap`); `set` on an existing key updates in place, `set` on a new key
  appends, `delete` removes the entry.
* `Date.now()` is an explicit `now : Int` argument.
* Handlers return the new state together with the notifications they emit, in
  emission order.  `console.log` changes no state and emits nothing; what it
  prints is not modelled.  Its template literal converts the interpolated
  values to strings, which throws for some objects.  In the send-message
  handler that conversion (line 77) sits inside the `try`, before the emit, so
  it is modelled (`JSVal.toStringThrows`).  In the other handlers the log line
  follows every mutation and emission; an exception leaving the handler there
  is not modelled.
* A handler whose parameter destructuring throws yields `Except.error`; the
  throw happens before the handler body runs, so no mutation precedes it.
* Room membership and the set of open sockets live inside socket.io, not in
  `server.js`; they are modelled from the specification (sections 4.2 and 6).
  `step` leaves the rooms of a closing socket as they are, as `server.js` does;
  `stepWith` takes what the transport does to them as a parameter.
-/

namespace Relay

/-! ## JavaScript values -/

mutual
/-- A JavaScript value as deserialised from an inbound packet. -/
inductive JSVal where
  | undefined
  | null
  | bool (b : Bool)
  | num (n : Int)
  | str (s : String)
  | obj (ref : Nat) (fields : JSFields)
  deriving DecidableEq
/-- Own enumerable properties of an object, in order. -/
inductive JSFields where
  | nil
  | cons (key : String) (value : JSVal) (rest : JSFields)
  deriving DecidableEq
end

/-- ToBoolean: the test performed by `if (x)` and by `&&`. -/
def JSVal.truthy : JSVal → Bool
  | .undefined => false
  | .null => false
  | .bool b => b
  | .num n => decide (n ≠ 0)
  | .str s => decide (s ≠ "")
  | .obj _ _ => true

/-- Whether the value is `null` or `undefined`; destructuring such a value throws. -/
def JSVal.isNullish : JSVal → Bool
  | .undefined => true
  | .null => true
  | _ => false

/-- Property lookup in a field list; an absent property reads as `undefined`. -/
def JSFields.get : JSFields → String → JSVal
  | .nil, _ => .undefined
  | .cons key value rest, name => if key = name then value else rest.get name

/-- Property read `v[name]` on a non-nullish value; primitives have none of the
properties the handlers read. -/
def JSVal.getProp : JSVal → String → JSVal
  | .obj _ fields, name => fields.get name
  | _, _ => .undefined

/-- Whether the field list holds an own property `name`. -/
def JSFields.has : JSFields → String → Bool
  | .nil, _ => false
  | .cons key _ rest, name => decide (key = name) || rest.has name

/-- Whether ToString, as a template literal applies it, throws a `TypeError`.
Primitives convert.  An object converts through `Object.prototype.toString`
unless it has an own property `toString`: a deserialised value is never
callable, so that property is skipped, and `valueOf` (own and not callable, or
`Object.prototype.valueOf`, which returns the object) yields no primitive. -/
def JSVal.toStringThrows : JSVal → Bool
  | .obj _ fields => fields.has "toString"
  | _ => false

/-- The only exception the handlers can raise. -/
inductive JSError where
  | typeError
  deriving DecidableEq

/-! ## `Map` -/

/-- Entries of `Map.prototype.set`: update in place or append. -/
def setEntries {V : Type} : List (JSVal × V) → JSVal → V → List (JSVal × V)
  | [], k, v => [(k, v)]
  | (k', v') :: rest, k, v =>
    if k' = k then (k', v) :: rest else (k', v') :: setEntries rest k v

/-- Entries of `Map.prototype.delete`. -/
def deleteEntries {V : Type} (l : List (JSVal × V)) (k : JSVal) : List (JSVal × V) :=
  l.filter (fun e => decide (e.1 ≠ k))

/-- Entries of `Map.prototype.get`. -/
def getEntries {V : Type} : List (JSVal × V) → JSVal → Option V
  | [], _ => none
  | (k', v') :: rest, k => if k' = k then some v' else getEntries rest k

/-- A JavaScript `Map` keyed by `JSVal`: entries in insertion order, keys distinct. -/
structure JSMap (V : Type) where
  entries : List (JSVal × V)
  nodupKeys : (entries.map Prod.fst).Nodup

instance {V : Type} [DecidableEq V] : DecidableEq (JSMap V) := fun a b =>
  if h : a.entries = b.entries then
    isTrue (by cases a; cases b; cases h; rfl)
  else
    isFalse (fun e => h (by rw [e]))

namespace JSMap

variable {V : Type}

/-- The result of `new Map()`. -/
def empty : JSMap V := ⟨[], List.nodup_nil⟩

/-- Models `Map.prototype.set`. -/
def set (m : JSMap V) (k : JSVal) (v : V) : JSMap V :=
  ⟨setEntries m.entries k v, by
    have hk : ∀ l : List (JSVal × V), (setEntries l k v).map Prod.fst =
        if k ∈ l.map Prod.fst then l.map Prod.fst else l.map Prod.fst ++ [k] := by
      intro l
      induction l with
      | nil => simp [setEntries]
      | cons hd tl ih =>
        obtain ⟨k', v'⟩ := hd
        by_cases h : k' = k
        · subst h
          simp [setEntries]
        · have h' : ¬ k = k' := fun e => h e.symm
          simp only [setEntries, if_neg h, List.map_cons, ih, List.mem_cons, h', false_or]
          split <;> simp
    rw [hk]
    split
    · exact m.nodupKeys
    · rename_i hmem
      exact List.Nodup.append m.nodupKeys (List.nodup_singleton k) (by simpa using hmem)⟩

/-- Models `Map.prototype.delete`. -/
def delete (m : JSMap V) (k : JSVal) : JSMap V :=
  ⟨deleteEntries m.entries k,
    List.Nodup.sublist ((List.filter_sublist m.entries).map Prod.fst) m.nodupKeys⟩

/-- Models `Map.prototype.get`, with `none` for `undefined`. -/
def get (m : JSMap V) (k : JSVal) : Option V := getEntries m.entries k

end JSMap

/-! ## State and notifications -/

/-- A socket.io socket id. -/
abbrev SocketId := String

/-- The value stored in `typingUsers`: `{ chatId, timestamp }`. -/
structure TypingRec where
  chatId : JSVal
  timestamp : Int
  deriving DecidableEq

/-- The addressing of an emission: `io.emit`, `io.to(chatId).emit`,
`socket.to(chatId).emit`. -/
inductive Target where
  | all
  | room (chatId : JSVal)
  | roomExcept (chatId : JSVal) (sender : SocketId)
  deriving DecidableEq

/-- The object literal passed to `emit`. -/
inductive Payload where
  | userStatus (userId : JSVal) (status : String)
  | userTyping (userId : JSVal) (isTyping : Bool)
  | newMessage (chatId : JSVal) (message : JSVal)
  deriving DecidableEq

/-- One call of `emit`. -/
structure Emit where
  target : Target
  event : String
  payload : Payload
  deriving DecidableEq

/-- The server state: the two maps of `server.js`, plus the socket.io side
(room membership pairs and the open sockets). -/
structure State where
  onlineUsers : JSMap SocketId
  typingUsers : JSMap TypingRec
  rooms : List (SocketId × JSVal)
  sockets : List SocketId
  deriving DecidableEq

/-- The state at process start. -/
def State.init : State := ⟨JSMap.empty, JSMap.empty, [], []⟩

/-! ## socket.io side: rooms and delivery -/

/-- Modelled from the spec: `Join(connection, room)` of section 4.2 (socket.io's
`socket.join`, not part of `server.js`): adds the connection to the room's
subscriber set; idempotent. -/
def joinRoom (rooms : List (SocketId × JSVal)) (socket : SocketId) (chatId : JSVal) :
    List (SocketId × JSVal) :=
  if (socket, chatId) ∈ rooms then rooms else rooms ++ [(socket, chatId)]

/-- Modelled from the spec: `Leave(connection, room)` of section 4.2 (socket.io's
`socket.leave`, not part of `server.js`): removes the connection from the room's
subscriber set; no error if absent. -/
def leaveRoom (rooms : List (SocketId × JSVal)) (socket : SocketId) (chatId : JSVal) :
    List (SocketId × JSVal) :=
  rooms.filter (fun e => decide (e ≠ (socket, chatId)))

/-- Whether `socket` is currently subscribed to room `chatId`. -/
def isMember (rooms : List (SocketId × JSVal)) (chatId : JSVal) (socket : SocketId) : Bool :=
  decide ((socket, chatId) ∈ rooms)

/-- Modelled from the spec: the fan-out of sections 4.2 and 6 (performed inside
socket.io, not part of `server.js`).  An emission to all connections reaches
every open socket; a room emission reaches every subscriber of the room; a room
emission with an excluded connection reaches every subscriber but that one. -/
def delivers (s : State) : Target → SocketId → Bool
  | .all, c => decide (c ∈ s.sockets)
  | .room chatId, c => isMember s.rooms chatId c
  | .roomExcept chatId sender, c => isMember s.rooms chatId c && decide (c ≠ sender)

/-! ## The handlers of `server.js` -/

/-- Models `socket.on('user-online', (userId) => ...)`, lines 33-40. -/
def onUserOnline (s : State) (socket : SocketId) (userId : JSVal) : State × List Emit :=
  if userId.truthy then
    ({ s with onlineUsers := s.onlineUsers.set userId socket },
      [⟨.all, "user-status-change", .userStatus userId "online"⟩])
  else (s, [])

/-- Models `socket.on('join-chat', (chatId) => ...)`, lines 43-46. -/
def onJoinChat (s : State) (socket : SocketId) (chatId : JSVal) : State × List Emit :=
  ({ s with rooms := joinRoom s.rooms socket chatId }, [])

/-- Models `socket.on('leave-chat', (chatId) => ...)`, lines 49-52. -/
def onLeaveChat (s : State) (socket : SocketId) (chatId : JSVal) : State × List Emit :=
  ({ s with rooms := leaveRoom s.rooms socket chatId }, [])

/-- Models `socket.on('typing-start', ({ userId, chatId }) => ...)`, lines 55-62.
Destructuring a nullish argument throws a `TypeError` before the body runs. -/
def onTypingStart (s : State) (socket : SocketId) (arg : JSVal) (now : Int) :
    Except JSError (State × List Emit) :=
  if arg.isNullish then .error .typeError
  else
    let userId := arg.getProp "userId"
    let chatId := arg.getProp "chatId"
    if userId.truthy && chatId.truthy then
      .ok ({ s with typingUsers := s.typingUsers.set userId ⟨chatId, now⟩ },
        [⟨.roomExcept chatId socket, "user-typing", .userTyping userId true⟩])
    else .ok (s, [])

/-- Models `socket.on('typing-stop', ({ userId, chatId }) => ...)`, lines 64-71. -/
def onTypingStop (s : State) (socket : SocketId) (arg : JSVal) :
    Except JSError (State × List Emit) :=
  if arg.isNullish then .error .typeError
  else
    let userId := arg.getProp "userId"
    let chatId := arg.getProp "chatId"
    if userId.truthy && chatId.truthy then
      .ok ({ s with typingUsers := s.typingUsers.delete userId },
        [⟨.roomExcept chatId socket, "user-typing", .userTyping userId false⟩])
    else .ok (s, [])

/-- Whether the template literal of line 77 throws: it converts `chatId`,
`userId` and `content` of the payload to strings, in that order. -/
def logLineThrows (messageData : JSVal) : Bool :=
  (messageData.getProp "chatId").toStringThrows ||
    (messageData.getProp "userId").toStringThrows ||
    (messageData.getProp "content").toStringThrows

/-- The `try` block of the send-message handler, lines 75-82: the destructuring
(line 75), the log line (line 77), the emit (lines 79-82). -/
def sendMessageTry (s : State) (messageData : JSVal) : Except JSError (State × List Emit) :=
  if messageData.isNullish then .error .typeError
  else
    let chatId := messageData.getProp "chatId"
    if logLineThrows messageData then .error .typeError
    else .ok (s, [⟨.room chatId, "new-message", .newMessage chatId messageData⟩])

/-- Models `socket.on('send-message', async (messageData) => ...)`, lines 73-86:
the `catch` clause only logs. -/
def onSendMessage (s : State) (_socket : SocketId) (messageData : JSVal) : State × List Emit :=
  match sendMessageTry s messageData with
  | .ok r => r
  | .error _ => (s, [])

/-- The scan of lines 91-97: the key of the first entry whose value is the
socket id, `undefined` when there is none. -/
def findUserBySocket : List (JSVal × SocketId) → SocketId → JSVal
  | [], _ => .undefined
  | (userId, socketId) :: rest, socket =>
    if socketId = socket then userId else findUserBySocket rest socket

/-- Models `socket.on('disconnect', () => ...)`, lines 88-107. -/
def onDisconnect (s : State) (socket : SocketId) : State × List Emit :=
  let disconnectedUserId := findUserBySocket s.onlineUsers.entries socket
  if disconnectedUserId.truthy then
    ({ s with
        onlineUsers := s.onlineUsers.delete disconnectedUserId
        typingUsers := s.typingUsers.delete disconnectedUserId },
      [⟨.all, "user-status-change", .userStatus disconnectedUserId "offline"⟩])
  else (s, [])

/-- The `for ... of typingUsers.entries()` loop of lines 112-117 over the entries
still to visit.  Deleting the entry being visited does not disturb the
iteration, and keys are distinct, so the entries to visit are those present when
the loop started. -/
def sweepLoop (now : Int) :
    List (JSVal × TypingRec) → JSMap TypingRec × List Emit → JSMap TypingRec × List Emit
  | [], acc => acc
  | (userId, r) :: rest, (m, out) =>
    if now - r.timestamp > 5000 then
      sweepLoop now rest
        (m.delete userId, out ++ [⟨.room r.chatId, "user-typing", .userTyping userId false⟩])
    else sweepLoop now rest (m, out)

/-- Models the `setInterval` callback, lines 110-118, run at time `now`. -/
def sweep (s : State) (now : Int) : State × List Emit :=
  let r := sweepLoop now s.typingUsers.entries (s.typingUsers, [])
  ({ s with typingUsers := r.1 }, r.2)

/-- The notification line 115 emits for an entry of `typingUsers`. -/
def stopNotice (e : JSVal × TypingRec) : Emit :=
  ⟨.room e.2.chatId, "user-typing", .userTyping e.1 false⟩

/-! ## The event system -/

/-- What can happen to the server: a socket connects, a client event arrives on
a socket, a socket disconnects, or the sweep timer fires. -/
inductive Event where
  | connect (socket : SocketId)
  | userOnline (socket : SocketId) (userId : JSVal)
  | joinChat (socket : SocketId) (chatId : JSVal)
  | leaveChat (socket : SocketId) (chatId : JSVal)
  | typingStart (socket : SocketId) (arg : JSVal) (now : Int)
  | typingStop (socket : SocketId) (arg : JSVal)
  | sendMessage (socket : SocketId) (messageData : JSVal)
  | disconnect (socket : SocketId)
  | sweep (now : Int)

/-- A socket connects only when its id is not in use; client events and the
disconnect arrive only on open sockets. -/
def Event.enabled (s : State) : Event → Bool
  | .connect c => decide (c ∉ s.sockets)
  | .userOnline c _ => decide (c ∈ s.sockets)
  | .joinChat c _ => decide (c ∈ s.sockets)
  | .leaveChat c _ => decide (c ∈ s.sockets)
  | .typingStart c _ _ => decide (c ∈ s.sockets)
  | .typingStop c _ => decide (c ∈ s.sockets)
  | .sendMessage c _ => decide (c ∈ s.sockets)
  | .disconnect c => decide (c ∈ s.sockets)
  | .sweep _ => true

/-- One event: the socket.io bookkeeping for connect and disconnect (the open
sockets), and the handler of `server.js` registered for the event. -/
def step (s : State) : Event → Except JSError (State × List Emit)
  | .connect c => .ok ({ s with sockets := s.sockets ++ [c] }, [])
  | .userOnline c userId => .ok (onUserOnline s c userId)
  | .joinChat c chatId => .ok (onJoinChat s c chatId)
  | .leaveChat c chatId => .ok (onLeaveChat s c chatId)
  | .typingStart c arg now => onTypingStart s c arg now
  | .typingStop c arg => onTypingStop s c arg
  | .sendMessage c messageData => .ok (onSendMessage s c messageData)
  | .disconnect c =>
    .ok (onDisconnect { s with sockets := s.sockets.filter (fun x => decide (x ≠ c)) } c)
  | .sweep now => .ok (sweep s now)

/-- Runs a list of events in order, collecting the notifications; `none` when an
event is not enabled or a handler throws. -/
def run : State → List Event → Option (State × List Emit)
  | s, [] => some (s, [])
  | s, e :: es =>
    if e.enabled s then
      match step s e with
      | .ok (s', out) =>
        match run s' es with
        | some (s'', out') => some (s'', out ++ out')
        | none => none
      | .error _ => none
    else none

/-- The state after socket `"c"` connected and announced user `"u"`. -/
def oneUserOnline : State :=
  ⟨JSMap.empty.set (.str "u") "c", JSMap.empty, [], ["c"]⟩

/-- A trace in which one socket announces two users and then disconnects. -/
def twoUsersOneSocket : List Event :=
  [.connect "c", .userOnline "c" (.str "a"), .userOnline "c" (.str "b"), .disconnect "c"]

/-- The payload `{ chatId: 'r', userId: 'u' }`: a message without `content`. -/
def messageWithoutContent : JSVal :=
  .obj 0 (.cons "chatId" (.str "r") (.cons "userId" (.str "u") .nil))

/-- The payload `{ userId: 'u', chatId: 'r' }` of a typing event. -/
def typingPayload : JSVal :=
  .obj 0 (.cons "userId" (.str "u") (.cons "chatId" (.str "r") .nil))

/-- A state in which user `"u"` is typing in room `"q"` and user `"v"` in room `"r"`. -/
def typingElsewhere : State :=
  ⟨JSMap.empty.set (.str "u") "c",
    (JSMap.empty.set (.str "u") ⟨.str "q", 1000⟩).set (.str "v") ⟨.str "r", 2000⟩, [], ["c"]⟩

/-- A state in which sockets `"a"` and `"b"` are both subscribed to room `"r"`. -/
def twoInRoom : State :=
  ⟨JSMap.empty, JSMap.empty, [("a", .str "r"), ("b", .str "r")], ["a", "b"]⟩

/-- The states the server can be in. -/
inductive Reachable : State → Prop where
  | init : Reachable State.init
  | step {s s' : State} {out : List Emit} (e : Event) :
      Reachable s → e.enabled s = true → step s e = .ok (s', out) → Reachable s'

/-! ## The timer -/

/-- Whether the event is a `typing-start` whose payload names `userId`. -/
def Event.startsTyping (userId : JSVal) : Event → Bool
  | .typingStart _ arg _ => decide (arg.getProp "userId" = userId)
  | _ => false

/-- The server together with its timer: `clock` is the time of the latest
timed event handled so far, `nextTick` the time at which the `setInterval`
callback of lines 110-118 fires next. -/
structure Clocked where
  state : State
  clock : Int
  nextTick : Int
  deriving DecidableEq

/-- The process started at time `start`: `setInterval(..., 5000)` schedules the
first sweep for `start + 5000`. -/
def Clocked.init (start : Int) : Clocked := ⟨State.init, start, start + 5000⟩

/-- Whether the event happens at an admissible time when the timer fires exactly
every 5000 ms: a sweep runs at `nextTick`, and the `Date.now()` read by a
`typing-start` lies between the latest timed event and the next tick. -/
def Event.onTime (k : Clocked) : Event → Bool
  | .sweep now => decide (now = k.nextTick)
  | .typingStart _ _ now => decide (k.clock ≤ now ∧ now ≤ k.nextTick)
  | _ => true

/-- The clock after the event: a sweep re-arms the timer 5000 ms later. -/
def Clocked.clockAfter (k : Clocked) : Event → Int × Int
  | .sweep now => (now, now + 5000)
  | .typingStart _ _ now => (now, k.nextTick)
  | _ => (k.clock, k.nextTick)

/-- Runs a list of events against the server and its timer; `none` when an event
is not enabled, comes at an inadmissible time, or a handler throws. -/
def clockedRun : Clocked → List Event → Option (Clocked × List Emit)
  | k, [] => some (k, [])
  | k, e :: es =>
    if e.enabled k.state && e.onTime k then
      match step k.state e with
      | .ok (s', out) =>
        match clockedRun ⟨s', (k.clockAfter e).1, (k.clockAfter e).2⟩ es with
        | some (k', out') => some (k', out ++ out')
        | none => none
      | .error _ => none
    else none

/-- What holds of the timer and the typing entries throughout a run: the next
tick is at most 5000 ms after the latest timed event, no entry is stamped later
than that event, and every entry is at most 10000 ms old when the next tick
comes. -/
def ClockInv (k : Clocked) : Prop :=
  k.clock ≤ k.nextTick ∧ k.nextTick ≤ k.clock + 5000 ∧
    ∀ e ∈ k.state.typingUsers.entries,
      e.2.timestamp ≤ k.clock ∧ k.nextTick - e.2.timestamp ≤ 10000

/-- The payload `{ userId: 'u1', chatId: 'room1' }`. -/
def u1InRoom1 : JSVal :=
  .obj 0 (.cons "userId" (.str "u1") (.cons "chatId" (.str "room1") .nil))

/-- Sockets `"A"` and `"B"` have both joined `"room1"`; the latest timed event
was at time 0 and the timer fires next at 4000. -/
def bothInRoom1 : Clocked :=
  ⟨⟨JSMap.empty, JSMap.empty, [("A", .str "room1"), ("B", .str "room1")], ["A", "B"]⟩,
    0, 4000⟩

/-- The payload `{ chatId: 'r', content: 'hi', userId: 'u', clientId: 7 }`. -/
def fullMessage : JSVal :=
  .obj 0 (.cons "chatId" (.str "r") (.cons "content" (.str "hi")
    (.cons "userId" (.str "u") (.cons "clientId" (.num 7) .nil))))

/-- The server and timer after a process started at time 0 saw socket `"c"`
connect, a `typing-start` at 1000, and the first sweep at 5000. -/
def afterFirstSweep : Clocked :=
  ⟨⟨JSMap.empty, JSMap.empty.set (.str "u") ⟨.str "r", 1000⟩, [], ["c"]⟩, 5000, 10000⟩

/-- The run that leads to `afterFirstSweep`. -/
def upToFirstSweep : List Event :=
  [.connect "c", .typingStart "c" typingPayload 1000, .sweep 5000]

/-- The payload `{ chatId: 'r', content: { toString: 1 }, userId: 'u' }`. -/
def messageWithOpaqueContent : JSVal :=
  .obj 0 (.cons "chatId" (.str "r")
    (.cons "content" (.obj 1 (.cons "toString" (.num 1) .nil))
      (.cons "userId" (.str "u") .nil)))

/-- A trace in which one socket announces two users. -/
def twoUsersAnnounced : List Event :=
  [.connect "c", .userOnline "c" (.str "a"), .userOnline "c" (.str "b")]

/-- The state reached by `twoUsersAnnounced`. -/
def registryAfterTwoUsers : State :=
  ⟨(JSMap.empty.set (.str "a") "c").set (.str "b") "c", JSMap.empty, [], ["c"]⟩

/-- One handled event of a timed run: the server and timer before it, the
event, the server and timer after it, and what the handler emitted. -/
structure TimedStep where
  before : Clocked
  event : Event
  after : Clocked
  out : List Emit

/-- As `clockedRun`, keeping every step. -/
def clockedTrace : Clocked → List Event → Option (List TimedStep)
  | _, [] => some []
  | k, e :: es =>
    if e.enabled k.state && e.onTime k then
      match step k.state e with
      | .ok (s', out) =>
        match clockedTrace ⟨s', (k.clockAfter e).1, (k.clockAfter e).2⟩ es with
        | some tr => some (⟨k, e, ⟨s', (k.clockAfter e).1, (k.clockAfter e).2⟩, out⟩ :: tr)
        | none => none
      | .error _ => none
    else none

/-- Whether the event is a typing signal for `userId`: a `typing-start` or a
`typing-stop` whose payload names the user. -/
def Event.isTypingSignal (userId : JSVal) : Event → Bool
  | .typingStart _ arg _ => decide (arg.getProp "userId" = userId)
  | .typingStop _ arg => decide (arg.getProp "userId" = userId)
  | _ => false

/-- Whether the event, handled in state `s`, is the disconnect of the socket
from which the scan of lines 91-97 resolves `userId`. -/
def Event.disconnectsUser (userId : JSVal) (s : State) : Event → Bool
  | .disconnect c => decide (findUserBySocket s.onlineUsers.entries c = userId)
  | _ => false

/-- For each step of a trace, its emissions paired with whether socket `b` is
among the recipients, the fan-out being resolved in the state after the step. -/
def sentTo (b : SocketId) (tr : List TimedStep) : List (List (Emit × Bool)) :=
  tr.map (fun st => st.out.map (fun e => (e, delivers st.after.state e.target b)))

/-- The notification `user-typing {userId: 'u1', isTyping: true}` of the
scenario, sent by `socket.to('room1')` from socket `"A"`. -/
def u1StartNotice : Emit :=
  ⟨.roomExcept (.str "room1") "A", "user-typing", .userTyping (.str "u1") true⟩

/-- The notification `user-typing {userId: 'u1', isTyping: false}` to `'room1'`. -/
def u1StopNotice : Emit :=
  ⟨.room (.str "room1"), "user-typing", .userTyping (.str "u1") false⟩

/-- One event when the transport, on closing a socket, replaces the room
membership by `leaveAll rooms socket` before the disconnect handler runs; every
other event is as in `step`.  With `leaveAll` returning the rooms as they are
this is `step`. -/
def stepWith (leaveAll : List (SocketId × JSVal) → SocketId → List (SocketId × JSVal))
    (s : State) : Event → Except JSError (State × List Emit)
  | .disconnect c => step { s with rooms := leaveAll s.rooms c } (.disconnect c)
  | e => step s e

/-- The states the server can be in over a transport with teardown `leaveAll`. -/
inductive ReachableWith
    (leaveAll : List (SocketId × JSVal) → SocketId → List (SocketId × JSVal)) :
    State → Prop where
  | init : ReachableWith leaveAll State.init
  | step {s s' : State} {out : List Emit} (e : Event) :
      ReachableWith leaveAll s → e.enabled s = true →
      stepWith leaveAll s e = .ok (s', out) → ReachableWith leaveAll s'

/-- A teardown in which the closing socket leaves every room. -/
def leaveAllRooms (rooms : List (SocketId × JSVal)) (socket : SocketId) :
    List (SocketId × JSVal) :=
  rooms.filter (fun e => decide (e.1 ≠ socket))

/-- The state after socket `"c"` connected and joined room `"r"`. -/
def oneInRoom : State := ⟨JSMap.empty, JSMap.empty, [("c", .str "r")], ["c"]⟩

/-! ## Lemmas on `Map` -/

theorem JSMap.ext_entries {V : Type} {a b : JSMap V} (h : a.entries = b.entries) : a = b := by
  cases a; cases b; cases h; rfl

theorem deleteEntries_of_not_mem {V : Type} (l : List (JSVal × V)) (k : JSVal)
    (h : k ∉ l.map Prod.fst) : deleteEntries l k = l := by
  unfold deleteEntries
  rw [List.filter_eq_self]
  intro e he
  have : e.1 ≠ k := fun heq => h (heq ▸ List.mem_map_of_mem Prod.fst he)
  simpa using this

theorem deleteEntries_append {V : Type} (l₁ l₂ : List (JSVal × V)) (k : JSVal) :
    deleteEntries (l₁ ++ l₂) k = deleteEntries l₁ k ++ deleteEntries l₂ k := by
  simp [deleteEntries]

theorem deleteEntries_middle {V : Type} (l₁ l₂ : List (JSVal × V)) (k : JSVal) (v : V)
    (h : ((l₁ ++ (k, v) :: l₂).map Prod.fst).Nodup) :
    deleteEntries (l₁ ++ (k, v) :: l₂) k = l₁ ++ l₂ := by
  rw [List.map_append, List.map_cons, List.nodup_append] at h
  obtain ⟨_, h2, h3⟩ := h
  have hk1 : k ∉ l₁.map Prod.fst := fun hmem => h3 hmem (List.mem_cons_self _ _)
  have hk2 : k ∉ l₂.map Prod.fst := (List.nodup_cons.mp h2).1
  rw [deleteEntries_append, deleteEntries_of_not_mem l₁ k hk1]
  have : deleteEntries ((k, v) :: l₂) k = deleteEntries l₂ k := by
    simp [deleteEntries]
  rw [this, deleteEntries_of_not_mem l₂ k hk2]

theorem getEntries_setEntries_self {V : Type} (l : List (JSVal × V)) (k : JSVal) (v : V) :
    getEntries (setEntries l k v) k = some v := by
  induction l with
  | nil => simp [setEntries, getEntries]
  | cons hd tl ih =>
    obtain ⟨k', v'⟩ := hd
    by_cases h : k' = k
    · simp [setEntries, getEntries, h]
    · simp [setEntries, getEntries, h, ih]

theorem getEntries_setEntries_ne {V : Type} (l : List (JSVal × V)) (k k' : JSVal) (v : V)
    (hne : k' ≠ k) : getEntries (setEntries l k v) k' = getEntries l k' := by
  induction l with
  | nil => simp [setEntries, getEntries, hne.symm]
  | cons hd tl ih =>
    obtain ⟨k₀, v₀⟩ := hd
    by_cases h : k₀ = k
    · subst h
      have h2 : ¬ k₀ = k' := fun e => hne e.symm
      simp [setEntries, getEntries, h2]
    · by_cases h2 : k₀ = k'
      · subst h2
        simp [setEntries, getEntries, h]
      · simp [setEntries, getEntries, h, h2, ih]

theorem mem_setEntries {V : Type} (l : List (JSVal × V)) (k : JSVal) (v : V)
    (e : JSVal × V) (he : e ∈ setEntries l k v) : e ∈ l ∨ e = (k, v) := by
  induction l with
  | nil => right; simpa [setEntries] using he
  | cons hd tl ih =>
    obtain ⟨k', v'⟩ := hd
    by_cases h : k' = k
    · subst h
      simp only [setEntries, if_true, List.mem_cons] at he
      rcases he with he | he
      · right; exact he
      · left; exact List.mem_cons_of_mem _ he
    · simp only [setEntries, if_neg h, List.mem_cons] at he
      rcases he with he | he
      · left; rw [he]; exact List.mem_cons_self _ _
      · rcases ih he with h1 | h1
        · left; exact List.mem_cons_of_mem _ h1
        · right; exact h1

theorem filter_key_setEntries {V : Type} (l : List (JSVal × V)) (k : JSVal) (v : V)
    (hn : (l.map Prod.fst).Nodup) :
    (setEntries l k v).filter (fun e => decide (e.1 = k)) = [(k, v)] := by
  induction l with
  | nil => simp [setEntries]
  | cons hd tl ih =>
    obtain ⟨k', v'⟩ := hd
    rw [List.map_cons, List.nodup_cons] at hn
    by_cases h : k' = k
    · subst h
      have : tl.filter (fun e => decide (e.1 = k')) = [] := by
        rw [List.filter_eq_nil_iff]
        intro e he hk
        have hk' : e.1 = k' := by simpa using hk
        exact hn.1 (List.mem_map.mpr ⟨e, he, hk'⟩)
      simp [setEntries, this]
    · simp [setEntries, h, ih hn.2]

theorem deleteEntries_setEntries {V : Type} (l : List (JSVal × V)) (k : JSVal) (v : V) :
    deleteEntries (setEntries l k v) k = deleteEntries l k := by
  induction l with
  | nil => simp [setEntries, deleteEntries]
  | cons hd tl ih =>
    obtain ⟨k', v'⟩ := hd
    by_cases h : k' = k
    · simp [setEntries, deleteEntries, h]
    · simp only [deleteEntries, ne_eq, decide_not] at ih
      simp [setEntries, deleteEntries, h, ih]

theorem getEntries_deleteEntries_self {V : Type} (l : List (JSVal × V)) (k : JSVal) :
    getEntries (deleteEntries l k) k = none := by
  induction l with
  | nil => simp [deleteEntries, getEntries]
  | cons hd tl ih =>
    obtain ⟨k', v'⟩ := hd
    simp only [deleteEntries, ne_eq, decide_not] at ih
    by_cases h : k' = k
    · simp [deleteEntries, h, ih]
    · simp [deleteEntries, getEntries, h, ih]

theorem getEntries_deleteEntries_ne {V : Type} (l : List (JSVal × V)) (k k' : JSVal)
    (hne : k' ≠ k) : getEntries (deleteEntries l k) k' = getEntries l k' := by
  induction l with
  | nil => simp [deleteEntries, getEntries]
  | cons hd tl ih =>
    obtain ⟨k₀, v₀⟩ := hd
    simp only [deleteEntries, ne_eq, decide_not] at ih
    by_cases h : k₀ = k
    · subst h
      have h2 : ¬ k₀ = k' := fun e => hne e.symm
      simp [deleteEntries, getEntries, h2, ih]
    · by_cases h2 : k₀ = k'
      · subst h2
        simp [deleteEntries, getEntries, h]
      · simp [deleteEntries, getEntries, h, h2, ih]

theorem getEntries_of_mem {V : Type} (l : List (JSVal × V)) (k : JSVal) (v : V)
    (hn : (l.map Prod.fst).Nodup) (hm : (k, v) ∈ l) : getEntries l k = some v := by
  induction l with
  | nil => simp at hm
  | cons hd tl ih =>
    obtain ⟨k', v'⟩ := hd
    rw [List.map_cons, List.nodup_cons] at hn
    rcases List.mem_cons.mp hm with h | h
    · cases h
      simp [getEntries]
    · have hk : k' ≠ k := fun e => hn.1 (List.mem_map.mpr ⟨(k, v), h, e.symm⟩)
      simp [getEntries, hk, ih hn.2 h]

theorem mem_of_getEntries {V : Type} (l : List (JSVal × V)) (k : JSVal) (v : V)
    (h : getEntries l k = some v) : (k, v) ∈ l := by
  induction l with
  | nil => simp [getEntries] at h
  | cons hd tl ih =>
    obtain ⟨k', v'⟩ := hd
    by_cases hk : k' = k
    · subst hk
      simp only [getEntries, if_true, Option.some.injEq] at h
      subst h
      exact List.mem_cons_self _ _
    · simp only [getEntries, if_neg hk] at h
      exact List.mem_cons_of_mem _ (ih h)

theorem getEntries_filter {V : Type} (l : List (JSVal × V)) (p : JSVal × V → Bool)
    (k : JSVal) (v : V) (h : getEntries l k = some v) (hp : p (k, v) = true) :
    getEntries (l.filter p) k = some v := by
  induction l with
  | nil => simp [getEntries] at h
  | cons hd tl ih =>
    obtain ⟨k', v'⟩ := hd
    by_cases hk : k' = k
    · subst hk
      simp only [getEntries, if_true, Option.some.injEq] at h
      subst h
      rw [List.filter_cons_of_pos hp]
      simp [getEntries]
    · simp only [getEntries, if_neg hk] at h
      by_cases hq : p (k', v') = true
      · rw [List.filter_cons_of_pos hq]
        simp [getEntries, hk, ih h]
      · rw [List.filter_cons_of_neg hq]
        exact ih h

theorem isNullish_of_truthy_prop (arg : JSVal) (name : String)
    (h : (arg.getProp name).truthy = true) : arg.isNullish = false := by
  cases arg <;> simp_all [JSVal.getProp, JSVal.truthy, JSVal.isNullish]

/-! ## The sweep -/

theorem sweepLoop_entries (now : Int) (rest : List (JSVal × TypingRec)) :
    ∀ (kept : List (JSVal × TypingRec)) (m : JSMap TypingRec) (out : List Emit),
      m.entries = kept ++ rest →
      (sweepLoop now rest (m, out)).1.entries =
          kept ++ rest.filter (fun e => decide (now - e.2.timestamp ≤ 5000)) ∧
        (sweepLoop now rest (m, out)).2 =
          out ++ (rest.filter (fun e => decide (now - e.2.timestamp > 5000))).map stopNotice := by
  induction rest with
  | nil => intro kept m out h; simp [sweepLoop, h]
  | cons hd tl ih =>
    intro kept m out h
    obtain ⟨userId, r⟩ := hd
    by_cases hx : now - r.timestamp > 5000
    · have hle : ¬ now - r.timestamp ≤ 5000 := not_le.mpr hx
      have hd : (m.delete userId).entries = kept ++ tl := by
        have hn := m.nodupKeys
        rw [h] at hn
        show deleteEntries m.entries userId = kept ++ tl
        rw [h]
        exact deleteEntries_middle kept tl userId r hn
      obtain ⟨h1, h2⟩ := ih kept (m.delete userId) (out ++ [stopNotice (userId, r)]) hd
      simp only [sweepLoop, if_pos hx]
      constructor
      · rw [show (⟨.room r.chatId, "user-typing", .userTyping userId false⟩ : Emit)
            = stopNotice (userId, r) from rfl, h1,
          List.filter_cons_of_neg (by simp only [decide_eq_true_eq]; exact hle)]
      · rw [show (⟨.room r.chatId, "user-typing", .userTyping userId false⟩ : Emit)
            = stopNotice (userId, r) from rfl, h2,
          List.filter_cons_of_pos (by simp only [decide_eq_true_eq]; exact hx),
          List.map_cons, List.append_assoc, List.singleton_append]
    · have hle : now - r.timestamp ≤ 5000 := not_lt.mp hx
      have hm : m.entries = (kept ++ [(userId, r)]) ++ tl := by simp [h]
      obtain ⟨h1, h2⟩ := ih (kept ++ [(userId, r)]) m out hm
      simp only [sweepLoop, if_neg hx]
      constructor
      · rw [h1, List.filter_cons_of_pos (by simp only [decide_eq_true_eq]; exact hle),
          List.append_assoc, List.singleton_append]
      · rw [h2, List.filter_cons_of_neg (by simp only [decide_eq_true_eq]; exact hx)]

theorem sweep_entries_aux (s : State) (now : Int) :
    (sweep s now).1.typingUsers.entries =
        s.typingUsers.entries.filter (fun e => decide (now - e.2.timestamp ≤ 5000)) ∧
      (sweep s now).2 =
        (s.typingUsers.entries.filter (fun e => decide (now - e.2.timestamp > 5000))).map
          stopNotice := by
  have h := sweepLoop_entries now s.typingUsers.entries [] s.typingUsers [] rfl
  rw [List.nil_append, List.nil_append] at h
  exact h

/-- C1: the sweep run at `now` keeps exactly the typing entries with
`now - timestamp <= 5000`, unchanged and in order, removes every entry with
`now - timestamp > 5000`, and its emissions are exactly one `user-typing`
`{userId, isTyping: false}` per removed entry, addressed to the whole room
recorded in that entry (no socket excluded), and nothing else. -/
theorem sweep_removes_exactly_expired (s : State) (now : Int) :
    (sweep s now).1.typingUsers.entries =
        s.typingUsers.entries.filter (fun e => decide (now - e.2.timestamp ≤ 5000)) ∧
      (sweep s now).2 =
        (s.typingUsers.entries.filter (fun e => decide (now - e.2.timestamp > 5000))).map
          (fun e => (⟨Target.room e.2.chatId, "user-typing", Payload.userTyping e.1 false⟩ : Emit)) := by
  have h := sweepLoop_entries now s.typingUsers.entries [] s.typingUsers [] rfl
  rw [List.nil_append, List.nil_append] at h
  exact h

/-! ## Registry: going online and disconnecting -/

theorem findUserBySocket_of_forall_ne (l : List (JSVal × SocketId)) (c : SocketId)
    (h : ∀ e ∈ l, e.2 ≠ c) : findUserBySocket l c = .undefined := by
  induction l with
  | nil => rfl
  | cons hd tl ih =>
    obtain ⟨u, c'⟩ := hd
    have h1 : c' ≠ c := h (u, c') (List.mem_cons_self _ _)
    simp only [findUserBySocket, if_neg h1]
    exact ih (fun e he => h e (List.mem_cons_of_mem _ he))

theorem findUserBySocket_mem (l : List (JSVal × SocketId)) (c : SocketId)
    (h : ∃ e ∈ l, e.2 = c) : (findUserBySocket l c, c) ∈ l := by
  induction l with
  | nil => obtain ⟨e, he, _⟩ := h; simp at he
  | cons hd tl ih =>
    obtain ⟨u, c'⟩ := hd
    by_cases h1 : c' = c
    · subst h1
      simp [findUserBySocket]
    · simp only [findUserBySocket, if_neg h1]
      obtain ⟨e, he, hc⟩ := h
      rcases List.mem_cons.mp he with h2 | h2
      · subst h2
        exact absurd hc h1
      · exact List.mem_cons_of_mem _ (ih ⟨e, h2, hc⟩)

theorem onDisconnect_found (s : State) (c : SocketId)
    (ht : (findUserBySocket s.onlineUsers.entries c).truthy = true) :
    onDisconnect s c =
      ({ s with
          onlineUsers := s.onlineUsers.delete (findUserBySocket s.onlineUsers.entries c)
          typingUsers := s.typingUsers.delete (findUserBySocket s.onlineUsers.entries c) },
        [⟨.all, "user-status-change",
          .userStatus (findUserBySocket s.onlineUsers.entries c) "offline"⟩]) := by
  simp only [onDisconnect, ht, if_true]

theorem onDisconnect_none (s : State) (c : SocketId)
    (hf : (findUserBySocket s.onlineUsers.entries c).truthy = false) :
    onDisconnect s c = (s, []) := by
  simp [onDisconnect, hf]

/-- C2: starting from an empty registry, after `user-online(u)` on `c1` and then
`user-online(u)` on `c2` (with `u` truthy and `c1 ≠ c2`), the disconnect handler
run for `c1` changes nothing and emits nothing, while run for `c2` it removes `u`
from the registry (leaving it empty), clears the typing entry of `u` and emits
exactly `user-status-change {userId: u, status: 'offline'}` to all sockets. -/
theorem reconnect_then_disconnect (s : State) (u : JSVal) (c1 c2 : SocketId)
    (hu : u.truthy = true) (hc : c1 ≠ c2) (hempty : s.onlineUsers = JSMap.empty) :
    onDisconnect (onUserOnline (onUserOnline s c1 u).1 c2 u).1 c1 =
        ((onUserOnline (onUserOnline s c1 u).1 c2 u).1, []) ∧
      onDisconnect (onUserOnline (onUserOnline s c1 u).1 c2 u).1 c2 =
        ({ s with
            onlineUsers := JSMap.empty
            typingUsers := s.typingUsers.delete u },
          [⟨.all, "user-status-change", .userStatus u "offline"⟩]) := by
  have hs2 : (onUserOnline (onUserOnline s c1 u).1 c2 u).1
      = { s with onlineUsers := ⟨[(u, c2)], by simp⟩ } := by
    simp only [onUserOnline, hu, if_true, hempty]
    congr 1
    apply JSMap.ext_entries
    simp [JSMap.set, JSMap.empty, setEntries]
  rw [hs2]
  constructor
  · simp [onDisconnect, findUserBySocket, hc.symm, JSVal.truthy]
  · simp only [onDisconnect, findUserBySocket, if_true, hu]
    congr 2
    apply JSMap.ext_entries
    simp [JSMap.delete, JSMap.empty, deleteEntries]

theorem reconnect_then_disconnect_witness :
    onDisconnect (onUserOnline (onUserOnline State.init "c1" (.str "u")).1 "c2" (.str "u")).1 "c1" =
        ((onUserOnline (onUserOnline State.init "c1" (.str "u")).1 "c2" (.str "u")).1, []) ∧
      onDisconnect (onUserOnline (onUserOnline State.init "c1" (.str "u")).1 "c2" (.str "u")).1 "c2" =
        ({ State.init with
            onlineUsers := JSMap.empty
            typingUsers := State.init.typingUsers.delete (.str "u") },
          [⟨.all, "user-status-change", .userStatus (.str "u") "offline"⟩]) :=
  reconnect_then_disconnect State.init (.str "u") "c1" "c2" (by decide) (by decide) rfl

/-! ## Reachable states: registry keys are truthy -/

theorem onTypingStart_onlineUsers (s s' : State) (c : SocketId) (arg : JSVal) (now : Int)
    (out : List Emit) (h : onTypingStart s c arg now = .ok (s', out)) :
    s'.onlineUsers = s.onlineUsers := by
  unfold onTypingStart at h
  split at h
  · cases h
  · simp only at h
    split at h <;> cases h <;> rfl

theorem onTypingStop_onlineUsers (s s' : State) (c : SocketId) (arg : JSVal)
    (out : List Emit) (h : onTypingStop s c arg = .ok (s', out)) :
    s'.onlineUsers = s.onlineUsers := by
  unfold onTypingStop at h
  split at h
  · cases h
  · simp only at h
    split at h <;> cases h <;> rfl

theorem onSendMessage_state (s : State) (c : SocketId) (messageData : JSVal) :
    (onSendMessage s c messageData).1 = s := by
  cases hn : messageData.isNullish <;> cases hl : logLineThrows messageData <;>
    simp [onSendMessage, sendMessageTry, hn, hl]

theorem keys_truthy_set (m : JSMap SocketId) (k : JSVal) (c : SocketId)
    (hk : k.truthy = true) (h : ∀ x ∈ m.entries, x.1.truthy = true) :
    ∀ x ∈ (m.set k c).entries, x.1.truthy = true := by
  intro x hx
  rcases mem_setEntries m.entries k c x hx with h1 | h1
  · exact h x h1
  · rw [h1]; exact hk

theorem keys_truthy_delete (m : JSMap SocketId) (k : JSVal)
    (h : ∀ x ∈ m.entries, x.1.truthy = true) :
    ∀ x ∈ (m.delete k).entries, x.1.truthy = true :=
  fun x hx => h x (List.mem_of_mem_filter hx)

theorem keys_truthy_step (s s' : State) (out : List Emit) (e : Event)
    (hs : step s e = .ok (s', out)) (h : ∀ x ∈ s.onlineUsers.entries, x.1.truthy = true) :
    ∀ x ∈ s'.onlineUsers.entries, x.1.truthy = true := by
  cases e with
  | connect c => cases hs; exact h
  | userOnline c userId =>
    simp only [step, onUserOnline] at hs
    split at hs
    · rename_i ht
      cases hs
      exact keys_truthy_set s.onlineUsers userId c ht h
    · cases hs; exact h
  | joinChat c chatId => cases hs; exact h
  | leaveChat c chatId => cases hs; exact h
  | typingStart c arg now =>
    rw [onTypingStart_onlineUsers s s' c arg now out hs]; exact h
  | typingStop c arg =>
    rw [onTypingStop_onlineUsers s s' c arg out hs]; exact h
  | sendMessage c messageData =>
    simp only [step, Except.ok.injEq] at hs
    have h1 := onSendMessage_state s c messageData
    rw [hs] at h1
    simp only at h1
    rw [h1]; exact h
  | disconnect c =>
    simp only [step, onDisconnect] at hs
    split at hs
    · cases hs
      exact keys_truthy_delete s.onlineUsers _ h
    · cases hs; exact h
  | sweep now => cases hs; exact h

theorem reachable_keys_truthy (s : State) (hr : Reachable s) :
    ∀ x ∈ s.onlineUsers.entries, x.1.truthy = true := by
  induction hr with
  | init => intro x hx; simp [State.init, JSMap.empty] at hx
  | step e _ _ hs ih => exact keys_truthy_step _ _ _ e hs ih

/-- C3: in every reachable state, the disconnect of socket `c` emits an offline
`user-status-change` if and only if some registry entry has value `c`.  When no
entry has value `c`, the registry and the typing map are unchanged and nothing
is emitted.  When some entry has value `c`, there is a user `u` registered to
`c` such that the registry afterwards is the registry with the entry of `u`
deleted, and the only emission is `user-status-change {userId: u, status:
'offline'}` to all sockets. -/
theorem disconnect_offline_iff_registered (s : State) (hr : Reachable s) (c : SocketId) :
    ∃ s' out, step s (.disconnect c) = .ok (s', out) ∧
      ((∃ u, (⟨.all, "user-status-change", .userStatus u "offline"⟩ : Emit) ∈ out) ↔
        ∃ e ∈ s.onlineUsers.entries, e.2 = c) ∧
      ((∀ e ∈ s.onlineUsers.entries, e.2 ≠ c) →
        s'.onlineUsers = s.onlineUsers ∧ s'.typingUsers = s.typingUsers ∧ out = []) ∧
      ((∃ e ∈ s.onlineUsers.entries, e.2 = c) →
        ∃ u, s.onlineUsers.get u = some c ∧ s'.onlineUsers = s.onlineUsers.delete u ∧
          out = [⟨.all, "user-status-change", .userStatus u "offline"⟩]) := by
  have hk := reachable_keys_truthy s hr
  by_cases hex : ∃ e ∈ s.onlineUsers.entries, e.2 = c
  · have hmem := findUserBySocket_mem s.onlineUsers.entries c hex
    have ht : (findUserBySocket s.onlineUsers.entries c).truthy = true := hk _ hmem
    refine ⟨_, _, congrArg Except.ok (onDisconnect_found _ c ht), ?_, ?_, ?_⟩
    · exact ⟨fun _ => hex, fun _ => ⟨_, List.mem_singleton.mpr rfl⟩⟩
    · intro hall
      obtain ⟨e, he, hc⟩ := hex
      exact absurd hc (hall e he)
    · intro _
      exact ⟨findUserBySocket s.onlineUsers.entries c,
        getEntries_of_mem _ _ _ s.onlineUsers.nodupKeys hmem, rfl, rfl⟩
  · have hall : ∀ e ∈ s.onlineUsers.entries, e.2 ≠ c := fun e he hc => hex ⟨e, he, hc⟩
    have hf : (findUserBySocket s.onlineUsers.entries c).truthy = false := by
      rw [findUserBySocket_of_forall_ne s.onlineUsers.entries c hall]; rfl
    refine ⟨_, _, congrArg Except.ok (onDisconnect_none _ c hf), ?_, ?_, ?_⟩
    · constructor
      · rintro ⟨u, hu⟩
        simp at hu
      · intro h
        exact absurd h hex
    · intro _
      exact ⟨rfl, rfl, rfl⟩
    · intro h
      exact absurd h hex

theorem reachable_oneUserOnline : Reachable oneUserOnline :=
  @Reachable.step ⟨JSMap.empty, JSMap.empty, [], ["c"]⟩ oneUserOnline
    [⟨.all, "user-status-change", .userStatus (.str "u") "online"⟩]
    (.userOnline "c" (.str "u"))
    (@Reachable.step State.init ⟨JSMap.empty, JSMap.empty, [], ["c"]⟩ []
      (.connect "c") Reachable.init (by decide) rfl)
    (by decide) rfl

theorem disconnect_offline_iff_registered_witness :
    ∃ s' out, step oneUserOnline (.disconnect "c") = .ok (s', out) ∧
      ((∃ u, (⟨.all, "user-status-change", .userStatus u "offline"⟩ : Emit) ∈ out) ↔
        ∃ e ∈ oneUserOnline.onlineUsers.entries, e.2 = "c") ∧
      ((∀ e ∈ oneUserOnline.onlineUsers.entries, e.2 ≠ "c") →
        s'.onlineUsers = oneUserOnline.onlineUsers ∧
          s'.typingUsers = oneUserOnline.typingUsers ∧ out = []) ∧
      ((∃ e ∈ oneUserOnline.onlineUsers.entries, e.2 = "c") →
        ∃ u, oneUserOnline.onlineUsers.get u = some "c" ∧
          s'.onlineUsers = oneUserOnline.onlineUsers.delete u ∧
          out = [⟨.all, "user-status-change", .userStatus u "offline"⟩]) :=
  disconnect_offline_iff_registered oneUserOnline reachable_oneUserOnline "c"

/-- C4, evaluated on the code: after socket `"c"` announces users `"a"` and `"b"`
and then disconnects, `"c"` is no longer open but the registry still maps `"b"`
to `"c"`: the scan of the disconnect handler stops at the first match. -/
theorem registry_entry_outlives_socket :
    (run State.init twoUsersOneSocket).map
        (fun r => (r.1.onlineUsers.entries, r.1.sockets, r.2)) =
      some ([(.str "b", "c")], [],
        [⟨.all, "user-status-change", .userStatus (.str "a") "online"⟩,
         ⟨.all, "user-status-change", .userStatus (.str "b") "online"⟩,
         ⟨.all, "user-status-change", .userStatus (.str "a") "offline"⟩]) := by
  decide

/-! ## Typing events -/

theorem onTypingStart_ok (s : State) (c : SocketId) (arg : JSVal) (now : Int)
    (hu : (arg.getProp "userId").truthy = true) (hr : (arg.getProp "chatId").truthy = true) :
    onTypingStart s c arg now =
      .ok ({ s with
              typingUsers :=
                s.typingUsers.set (arg.getProp "userId") ⟨arg.getProp "chatId", now⟩ },
        [⟨.roomExcept (arg.getProp "chatId") c, "user-typing",
          .userTyping (arg.getProp "userId") true⟩]) := by
  have hn := isNullish_of_truthy_prop arg "userId" hu
  simp [onTypingStart, hn, hu, hr]

theorem onTypingStop_ok (s : State) (c : SocketId) (arg : JSVal)
    (hu : (arg.getProp "userId").truthy = true) (hr : (arg.getProp "chatId").truthy = true) :
    onTypingStop s c arg =
      .ok ({ s with typingUsers := s.typingUsers.delete (arg.getProp "userId") },
        [⟨.roomExcept (arg.getProp "chatId") c, "user-typing",
          .userTyping (arg.getProp "userId") false⟩]) := by
  have hn := isNullish_of_truthy_prop arg "userId" hu
  simp [onTypingStop, hn, hu, hr]

theorem sweep_keeps_fresh (s : State) (u : JSVal) (r : TypingRec) (now : Int)
    (hg : s.typingUsers.get u = some r) (hf : now - r.timestamp ≤ 5000) :
    (sweep s now).1.typingUsers.get u = some r ∧
      ∀ e ∈ (sweep s now).2, e.payload ≠ .userTyping u false := by
  obtain ⟨h1, h2⟩ := sweep_entries_aux s now
  constructor
  · show getEntries (sweep s now).1.typingUsers.entries u = some r
    rw [h1]
    exact getEntries_filter _ _ u r hg (by simp only [decide_eq_true_eq]; exact hf)
  · intro e he hp
    rw [h2, List.mem_map] at he
    obtain ⟨x, hx, hxe⟩ := he
    obtain ⟨hxm, hxp⟩ := List.mem_filter.mp hx
    rw [← hxe] at hp
    have hk : x.1 = u := by
      simp only [stopNotice, Payload.userTyping.injEq, and_true] at hp
      exact hp
    have hxr : getEntries s.typingUsers.entries x.1 = some x.2 :=
      getEntries_of_mem _ _ _ s.typingUsers.nodupKeys hxm
    rw [hk] at hxr
    have hrx : x.2 = r := Option.some.inj (hxr.symm.trans hg)
    rw [hrx] at hxp
    simp only [decide_eq_true_eq] at hxp
    exact absurd hf (not_le.mpr hxp)

/-- C5: for truthy `u` and `r`, after `typing-start {userId: u, chatId: r}` at
`t1` and again at `t2`, the typing entry of `u` is `{chatId: r, timestamp: t2}`,
and every sweep run at a time `now` with `now - t2 <= 5000` keeps that entry and
emits no `isTyping: false` notification for `u`, whatever `now - t1` is. -/
theorem typing_start_again_resets_age (s : State) (c1 c2 : SocketId) (a1 a2 u r : JSVal)
    (t1 t2 : Int) (hu : u.truthy = true) (hr : r.truthy = true)
    (h1u : a1.getProp "userId" = u) (h1r : a1.getProp "chatId" = r)
    (h2u : a2.getProp "userId" = u) (h2r : a2.getProp "chatId" = r) :
    ∃ s1 o1 s2 o2,
      onTypingStart s c1 a1 t1 = .ok (s1, o1) ∧ onTypingStart s1 c2 a2 t2 = .ok (s2, o2) ∧
      s2.typingUsers.get u = some ⟨r, t2⟩ ∧
      ∀ now : Int, now - t2 ≤ 5000 →
        (sweep s2 now).1.typingUsers.get u = some ⟨r, t2⟩ ∧
          ∀ e ∈ (sweep s2 now).2, e.payload ≠ .userTyping u false := by
  have e1 := onTypingStart_ok s c1 a1 t1 (by rw [h1u]; exact hu) (by rw [h1r]; exact hr)
  refine ⟨_, _, _, _, e1, onTypingStart_ok _ c2 a2 t2 (by rw [h2u]; exact hu)
    (by rw [h2r]; exact hr), ?_, ?_⟩
  · rw [h2u, h2r]
    exact getEntries_setEntries_self _ u _
  · intro now hnow
    refine sweep_keeps_fresh _ u ⟨r, t2⟩ now ?_ hnow
    rw [h2u, h2r]
    exact getEntries_setEntries_self _ u _

theorem typing_start_again_resets_age_witness :
    ∃ s1 o1 s2 o2,
      onTypingStart State.init "c" typingPayload 0 = .ok (s1, o1) ∧
      onTypingStart s1 "c" typingPayload 4000 = .ok (s2, o2) ∧
      s2.typingUsers.get (.str "u") = some ⟨.str "r", 4000⟩ ∧
      ∀ now : Int, now - 4000 ≤ 5000 →
        (sweep s2 now).1.typingUsers.get (.str "u") = some ⟨.str "r", 4000⟩ ∧
          ∀ e ∈ (sweep s2 now).2, e.payload ≠ .userTyping (.str "u") false :=
  typing_start_again_resets_age State.init "c" "c" typingPayload typingPayload
    (.str "u") (.str "r") 0 4000 (by decide) (by decide) (by decide) (by decide)
    (by decide) (by decide)

theorem typing_stop_clears (s : State) (c : SocketId) (arg u r : JSVal)
    (hu : u.truthy = true) (hr : r.truthy = true)
    (hau : arg.getProp "userId" = u) (har : arg.getProp "chatId" = r) :
    onTypingStop s c arg =
        .ok ({ s with typingUsers := s.typingUsers.delete u },
          [⟨.roomExcept r c, "user-typing", .userTyping u false⟩]) ∧
      (s.typingUsers.delete u).get u = none := by
  constructor
  · have h := onTypingStop_ok s c arg (by rw [hau]; exact hu) (by rw [har]; exact hr)
    rw [hau, har] at h
    exact h
  · exact getEntries_deleteEntries_self _ u

/-- C6: for truthy `u` and `r`, `typing-stop {userId: u, chatId: r}` on socket `c`
emits exactly one notification, `user-typing {userId: u, isTyping: false}` to
room `r` excluding `c`, in every state (so also when `u` had no typing entry),
and afterwards the typing map holds no entry for `u`; nothing else changes. -/
theorem typing_stop_always_notifies (s : State) (c : SocketId) (arg u r : JSVal)
    (hu : u.truthy = true) (hr : r.truthy = true)
    (hau : arg.getProp "userId" = u) (har : arg.getProp "chatId" = r) :
    onTypingStop s c arg =
        .ok ({ s with typingUsers := s.typingUsers.delete u },
          [⟨.roomExcept r c, "user-typing", .userTyping u false⟩]) ∧
      (s.typingUsers.delete u).get u = none := by
  constructor
  · have h := onTypingStop_ok s c arg (by rw [hau]; exact hu) (by rw [har]; exact hr)
    rw [hau, har] at h
    exact h
  · exact getEntries_deleteEntries_self _ u

theorem typing_stop_always_notifies_witness :
    onTypingStop State.init "c" typingPayload =
        .ok ({ State.init with typingUsers := State.init.typingUsers.delete (.str "u") },
          [⟨.roomExcept (.str "r") "c", "user-typing", .userTyping (.str "u") false⟩]) ∧
      (State.init.typingUsers.delete (.str "u")).get (.str "u") = none :=
  typing_stop_always_notifies State.init "c" typingPayload (.str "u") (.str "r")
    (by decide) (by decide) (by decide) (by decide)

/-! ## Recipients -/

theorem onSendMessage_ok (s : State) (c : SocketId) (messageData : JSVal)
    (hn : messageData.isNullish = false) (hl : logLineThrows messageData = false) :
    onSendMessage s c messageData =
      (s, [⟨.room (messageData.getProp "chatId"), "new-message",
        .newMessage (messageData.getProp "chatId") messageData⟩]) := by
  simp [onSendMessage, sendMessageTry, hn, hl]

theorem onSendMessage_caught (s : State) (c : SocketId) (messageData : JSVal)
    (h : messageData.isNullish = true ∨ logLineThrows messageData = true) :
    onSendMessage s c messageData = (s, []) := by
  cases hn : messageData.isNullish
  · rcases h with h | h
    · rw [hn] at h; cases h
    · simp [onSendMessage, sendMessageTry, hn, h]
  · simp [onSendMessage, sendMessageTry, hn]

theorem onSendMessage_emits (s : State) (c : SocketId) (messageData : JSVal) (e : Emit)
    (he : e ∈ (onSendMessage s c messageData).2) :
    e = ⟨.room (messageData.getProp "chatId"), "new-message",
      .newMessage (messageData.getProp "chatId") messageData⟩ := by
  cases hn : messageData.isNullish
  · cases hl : logLineThrows messageData
    · rw [onSendMessage_ok s c messageData hn hl] at he
      exact List.mem_singleton.mp he
    · rw [onSendMessage_caught s c messageData (Or.inr hl)] at he
      cases he
  · rw [onSendMessage_caught s c messageData (Or.inl hn)] at he
    cases he

/-- C7: for every room membership and sending socket `c`, the notification of a
`typing-start` or `typing-stop` for room `r` is delivered exactly to the members
of `r` other than `c` (so never to `c`), and every notification that a
`send-message` for room `r` emits is a `new-message` delivered exactly to the
members of `r` (so to `c` too whenever `c` is a member); the handler emits one
whenever the payload is destructured and logged without an exception. -/
theorem typing_excludes_sender_message_includes (s : State) (c : SocketId)
    (arg messageData r : JSVal) (now : Int)
    (hu : (arg.getProp "userId").truthy = true) (hr : r.truthy = true)
    (har : arg.getProp "chatId" = r) (hmr : messageData.getProp "chatId" = r) :
    (∃ s' e, onTypingStart s c arg now = .ok (s', [e]) ∧
        (∀ x, delivers s' e.target x = true ↔ (isMember s.rooms r x = true ∧ x ≠ c)) ∧
        delivers s' e.target c = false) ∧
      (∃ s' e, onTypingStop s c arg = .ok (s', [e]) ∧
        (∀ x, delivers s' e.target x = true ↔ (isMember s.rooms r x = true ∧ x ≠ c)) ∧
        delivers s' e.target c = false) ∧
      (∀ e ∈ (onSendMessage s c messageData).2,
        e.event = "new-message" ∧
        (∀ x, delivers (onSendMessage s c messageData).1 e.target x = true ↔
          isMember s.rooms r x = true) ∧
        (isMember s.rooms r c = true →
          delivers (onSendMessage s c messageData).1 e.target c = true)) ∧
      (messageData.isNullish = false → logLineThrows messageData = false →
        ∃ e, (onSendMessage s c messageData).2 = [e]) := by
  have hr' : (arg.getProp "chatId").truthy = true := by rw [har]; exact hr
  refine ⟨⟨_, _, onTypingStart_ok s c arg now hu hr', ?_, ?_⟩,
    ⟨_, _, onTypingStop_ok s c arg hu hr', ?_, ?_⟩, ?_, ?_⟩
  · intro x; simp [delivers, har]
  · simp [delivers]
  · intro x; simp [delivers, har]
  · simp [delivers]
  · intro e he
    rw [onSendMessage_emits s c messageData e he, onSendMessage_state s c messageData, hmr]
    refine ⟨rfl, ?_, ?_⟩
    · intro x; simp [delivers]
    · intro h; simpa [delivers] using h
  · intro hn hl
    rw [onSendMessage_ok s c messageData hn hl]
    exact ⟨_, rfl⟩

theorem typing_excludes_sender_message_includes_witness :
    (∃ s' e, onTypingStart twoInRoom "a" typingPayload 0 = .ok (s', [e]) ∧
        (∀ x, delivers s' e.target x = true ↔
          (isMember twoInRoom.rooms (.str "r") x = true ∧ x ≠ "a")) ∧
        delivers s' e.target "a" = false) ∧
      (∃ s' e, onTypingStop twoInRoom "a" typingPayload = .ok (s', [e]) ∧
        (∀ x, delivers s' e.target x = true ↔
          (isMember twoInRoom.rooms (.str "r") x = true ∧ x ≠ "a")) ∧
        delivers s' e.target "a" = false) ∧
      (∀ e ∈ (onSendMessage twoInRoom "a" fullMessage).2,
        e.event = "new-message" ∧
        (∀ x, delivers (onSendMessage twoInRoom "a" fullMessage).1 e.target x = true ↔
          isMember twoInRoom.rooms (.str "r") x = true) ∧
        (isMember twoInRoom.rooms (.str "r") "a" = true →
          delivers (onSendMessage twoInRoom "a" fullMessage).1 e.target "a" = true)) ∧
      (fullMessage.isNullish = false → logLineThrows fullMessage = false →
        ∃ e, (onSendMessage twoInRoom "a" fullMessage).2 = [e]) :=
  typing_excludes_sender_message_includes twoInRoom "a" typingPayload
    fullMessage (.str "r") 0 (by decide) (by decide) (by decide) (by decide)

/-! ## Payloads with missing fields -/

/-- C8 as stated fails: a `send-message` whose payload has `chatId` and `userId`
but no `content` is not ignored, it is broadcast to the room as `new-message`;
and a `typing-start` or `typing-stop` that arrives without a payload is not
ignored either, the handler throws a `TypeError` while destructuring. -/
theorem send_message_without_content_is_relayed :
    (messageWithoutContent.getProp "content" = .undefined ∧
      onSendMessage State.init "c" messageWithoutContent =
        (State.init,
          [⟨.room (.str "r"), "new-message",
            .newMessage (.str "r") messageWithoutContent⟩]) ∧
      (onSendMessage State.init "c" messageWithoutContent).2 ≠ []) ∧
      onTypingStart State.init "c" .undefined 0 = .error .typeError ∧
      onTypingStop State.init "c" .undefined = .error .typeError := by
  refine ⟨by decide, rfl, rfl⟩

/-- C8, amended: in every state, `user-online` with a falsy user is ignored, and
`typing-start` and `typing-stop` whose payload (not `null` or `undefined`) has a
falsy `userId` or a falsy `chatId` are ignored: the state is unchanged and
nothing is emitted.  When their payload is `null` or `undefined`, the typing
handlers throw a `TypeError` at the destructuring, before any change or
emission.  `send-message` never changes the state and does not check its
fields: a payload that is destructured and logged without an exception is
relayed as one `new-message` to the room named by its `chatId`, whichever of
`chatId`, `content`, `userId` it lacks; when the destructuring or the log line
throws, the error is caught and nothing is emitted. -/
theorem missing_field_handling (s : State) (c : SocketId) :
    (∀ userId : JSVal, userId.truthy = false → onUserOnline s c userId = (s, [])) ∧
      (∀ (arg : JSVal) (now : Int), arg.isNullish = false →
        ((arg.getProp "userId").truthy = false ∨ (arg.getProp "chatId").truthy = false) →
        onTypingStart s c arg now = .ok (s, [])) ∧
      (∀ arg : JSVal, arg.isNullish = false →
        ((arg.getProp "userId").truthy = false ∨ (arg.getProp "chatId").truthy = false) →
        onTypingStop s c arg = .ok (s, [])) ∧
      (∀ (arg : JSVal) (now : Int), arg.isNullish = true →
        onTypingStart s c arg now = .error .typeError ∧
          onTypingStop s c arg = .error .typeError) ∧
      (∀ messageData : JSVal, (onSendMessage s c messageData).1 = s) ∧
      (∀ messageData : JSVal, messageData.isNullish = false →
        logLineThrows messageData = false →
        (onSendMessage s c messageData).2 =
          [⟨.room (messageData.getProp "chatId"), "new-message",
            .newMessage (messageData.getProp "chatId") messageData⟩]) ∧
      (∀ messageData : JSVal,
        (messageData.isNullish = true ∨ logLineThrows messageData = true) →
        (onSendMessage s c messageData).2 = []) := by
  refine ⟨?_, ?_, ?_, ?_, ?_, ?_, ?_⟩
  · intro userId h
    simp [onUserOnline, h]
  · intro arg now hn h
    rcases h with h | h <;> simp [onTypingStart, hn, h]
  · intro arg hn h
    rcases h with h | h <;> simp [onTypingStop, hn, h]
  · intro arg now hn
    constructor
    · simp [onTypingStart, hn]
    · simp [onTypingStop, hn]
  · intro messageData
    exact onSendMessage_state s c messageData
  · intro messageData hn hl
    rw [onSendMessage_ok s c messageData hn hl]
  · intro messageData h
    rw [onSendMessage_caught s c messageData h]

theorem missing_field_handling_witness :
    onUserOnline oneUserOnline "c" (.str "") = (oneUserOnline, []) ∧
      onTypingStart oneUserOnline "c" (.obj 0 (.cons "chatId" (.str "r") .nil)) 0 =
        .ok (oneUserOnline, []) ∧
      onTypingStop oneUserOnline "c" (.obj 0 .nil) = .ok (oneUserOnline, []) ∧
      (onTypingStart oneUserOnline "c" .null 0 = .error .typeError ∧
        onTypingStop oneUserOnline "c" .null = .error .typeError) ∧
      (onSendMessage oneUserOnline "c" .null).1 = oneUserOnline ∧
      (onSendMessage oneUserOnline "c" (.obj 0 .nil)).2 =
        [⟨.room .undefined, "new-message", .newMessage .undefined (.obj 0 .nil)⟩] ∧
      (onSendMessage oneUserOnline "c" messageWithOpaqueContent).2 = [] :=
  ⟨(missing_field_handling oneUserOnline "c").1 (.str "") (by decide),
    (missing_field_handling oneUserOnline "c").2.1 (.obj 0 (.cons "chatId" (.str "r") .nil)) 0
      (by decide) (Or.inl (by decide)),
    (missing_field_handling oneUserOnline "c").2.2.1 (.obj 0 .nil) (by decide)
      (Or.inl (by decide)),
    (missing_field_handling oneUserOnline "c").2.2.2.1 .null 0 (by decide),
    (missing_field_handling oneUserOnline "c").2.2.2.2.1 .null,
    (missing_field_handling oneUserOnline "c").2.2.2.2.2.1 (.obj 0 .nil) (by decide) (by decide),
    (missing_field_handling oneUserOnline "c").2.2.2.2.2.2 messageWithOpaqueContent
      (Or.inr (by decide))⟩

/-! ## Overwriting entries -/

/-- C9: for a truthy user `u`, `user-online(u)` on socket `c` yields a registry
that maps `u` to `c` through exactly one entry (a prior mapping of `u` is
overwritten in place, not appended) and maps every other user as before; the
typing map, rooms and open sockets are unchanged; and the only emission is
`user-status-change {userId: u, status: 'online'}` to all sockets, whether or
not `u` was registered before. -/
theorem user_online_overwrites (s : State) (c : SocketId) (u : JSVal)
    (hu : u.truthy = true) :
    ∃ s', onUserOnline s c u =
        (s', [⟨.all, "user-status-change", .userStatus u "online"⟩]) ∧
      s'.onlineUsers.get u = some c ∧
      s'.onlineUsers.entries.filter (fun e => decide (e.1 = u)) = [(u, c)] ∧
      (∀ u', u' ≠ u → s'.onlineUsers.get u' = s.onlineUsers.get u') ∧
      s'.onlineUsers.entries.filter (fun e => decide (e.1 ≠ u)) =
        s.onlineUsers.entries.filter (fun e => decide (e.1 ≠ u)) ∧
      s'.typingUsers = s.typingUsers ∧ s'.rooms = s.rooms ∧ s'.sockets = s.sockets := by
  refine ⟨{ s with onlineUsers := s.onlineUsers.set u c }, ?_, ?_, ?_, ?_, ?_, rfl, rfl, rfl⟩
  · simp [onUserOnline, hu]
  · exact getEntries_setEntries_self _ u c
  · exact filter_key_setEntries _ u c s.onlineUsers.nodupKeys
  · intro u' hne
    exact getEntries_setEntries_ne _ u u' c hne
  · exact deleteEntries_setEntries s.onlineUsers.entries u c

theorem user_online_overwrites_witness :
    ∃ s', onUserOnline oneUserOnline "d" (.str "u") =
        (s', [⟨.all, "user-status-change", .userStatus (.str "u") "online"⟩]) ∧
      s'.onlineUsers.get (.str "u") = some "d" ∧
      s'.onlineUsers.entries.filter (fun e => decide (e.1 = .str "u")) = [(.str "u", "d")] ∧
      (∀ u', u' ≠ .str "u" → s'.onlineUsers.get u' = oneUserOnline.onlineUsers.get u') ∧
      s'.onlineUsers.entries.filter (fun e => decide (e.1 ≠ .str "u")) =
        oneUserOnline.onlineUsers.entries.filter (fun e => decide (e.1 ≠ .str "u")) ∧
      s'.typingUsers = oneUserOnline.typingUsers ∧ s'.rooms = oneUserOnline.rooms ∧
      s'.sockets = oneUserOnline.sockets :=
  user_online_overwrites oneUserOnline "d" (.str "u") (by decide)

/-- C10: for truthy `u` and `r2`, `typing-start {userId: u, chatId: r2}` at time
`t` on socket `c` leaves the typing map with exactly one entry for `u`, namely
`{chatId: r2, timestamp: t}`, whatever entry `u` had before (also one for another
room); the entries of all other users are unchanged, the registry, rooms and
open sockets are unchanged, and the only emission is `user-typing {userId: u,
isTyping: true}` to room `r2` excluding `c`. -/
theorem typing_start_replaces_record (s : State) (c : SocketId) (arg u r2 : JSVal) (t : Int)
    (hu : u.truthy = true) (hr : r2.truthy = true)
    (hau : arg.getProp "userId" = u) (har : arg.getProp "chatId" = r2) :
    ∃ s', onTypingStart s c arg t =
        .ok (s', [⟨.roomExcept r2 c, "user-typing", .userTyping u true⟩]) ∧
      s'.typingUsers.get u = some ⟨r2, t⟩ ∧
      s'.typingUsers.entries.filter (fun e => decide (e.1 = u)) = [(u, ⟨r2, t⟩)] ∧
      (∀ u', u' ≠ u → s'.typingUsers.get u' = s.typingUsers.get u') ∧
      s'.typingUsers.entries.filter (fun e => decide (e.1 ≠ u)) =
        s.typingUsers.entries.filter (fun e => decide (e.1 ≠ u)) ∧
      s'.onlineUsers = s.onlineUsers ∧ s'.rooms = s.rooms ∧ s'.sockets = s.sockets := by
  refine ⟨{ s with typingUsers := s.typingUsers.set u ⟨r2, t⟩ }, ?_, ?_, ?_, ?_, ?_,
    rfl, rfl, rfl⟩
  · have h := onTypingStart_ok s c arg t (by rw [hau]; exact hu) (by rw [har]; exact hr)
    rw [hau, har] at h
    exact h
  · exact getEntries_setEntries_self _ u _
  · exact filter_key_setEntries _ u _ s.typingUsers.nodupKeys
  · intro u' hne
    exact getEntries_setEntries_ne _ u u' _ hne
  · exact deleteEntries_setEntries s.typingUsers.entries u _

theorem typing_start_replaces_record_witness :
    ∃ s', onTypingStart typingElsewhere "c" typingPayload 7000 =
        .ok (s', [⟨.roomExcept (.str "r") "c", "user-typing", .userTyping (.str "u") true⟩]) ∧
      s'.typingUsers.get (.str "u") = some ⟨.str "r", 7000⟩ ∧
      s'.typingUsers.entries.filter (fun e => decide (e.1 = .str "u")) =
        [(.str "u", ⟨.str "r", 7000⟩)] ∧
      (∀ u', u' ≠ .str "u" → s'.typingUsers.get u' = typingElsewhere.typingUsers.get u') ∧
      s'.typingUsers.entries.filter (fun e => decide (e.1 ≠ .str "u")) =
        typingElsewhere.typingUsers.entries.filter (fun e => decide (e.1 ≠ .str "u")) ∧
      s'.onlineUsers = typingElsewhere.onlineUsers ∧ s'.rooms = typingElsewhere.rooms ∧
      s'.sockets = typingElsewhere.sockets :=
  typing_start_replaces_record typingElsewhere "c" typingPayload (.str "u") (.str "r") 7000
    (by decide) (by decide) (by decide) (by decide)

/-! ## Disconnect and the typing map -/

/-- C13: when the scan of the disconnect handler resolves socket `c` to a truthy
user `u`, the handler deletes the registry and typing entries of `u`, leaves
the typing entry of every other user as it was, and its only emission is
`user-status-change {userId: u, status: 'offline'}` to all sockets: no
`user-typing` notification is emitted. -/
theorem disconnect_clears_typing_silently (s : State) (c : SocketId) (u : JSVal)
    (hres : findUserBySocket s.onlineUsers.entries c = u) (hu : u.truthy = true) :
    onDisconnect s c =
        ({ s with
            onlineUsers := s.onlineUsers.delete u
            typingUsers := s.typingUsers.delete u },
          [⟨.all, "user-status-change", .userStatus u "offline"⟩]) ∧
      (onDisconnect s c).1.typingUsers.get u = none ∧
      (∀ u', u' ≠ u → (onDisconnect s c).1.typingUsers.get u' = s.typingUsers.get u') ∧
      (onDisconnect s c).1.typingUsers.entries.filter (fun e => decide (e.1 ≠ u)) =
        s.typingUsers.entries.filter (fun e => decide (e.1 ≠ u)) ∧
      ∀ e ∈ (onDisconnect s c).2, e.event ≠ "user-typing" := by
  have ht : (findUserBySocket s.onlineUsers.entries c).truthy = true := by rw [hres]; exact hu
  have h := onDisconnect_found s c ht
  rw [hres] at h
  rw [h]
  refine ⟨rfl, ?_, ?_, ?_, ?_⟩
  · exact getEntries_deleteEntries_self _ u
  · intro u' hne
    exact getEntries_deleteEntries_ne _ u u' hne
  · show (deleteEntries s.typingUsers.entries u).filter _ = _
    unfold deleteEntries
    rw [List.filter_filter]
    simp
  · intro e he
    rw [List.mem_singleton] at he
    rw [he]
    show "user-status-change" ≠ "user-typing"
    decide

theorem disconnect_clears_typing_silently_witness :
    onDisconnect typingElsewhere "c" =
        ({ typingElsewhere with
            onlineUsers := typingElsewhere.onlineUsers.delete (.str "u")
            typingUsers := typingElsewhere.typingUsers.delete (.str "u") },
          [⟨.all, "user-status-change", .userStatus (.str "u") "offline"⟩]) ∧
      (onDisconnect typingElsewhere "c").1.typingUsers.get (.str "u") = none ∧
      (∀ u', u' ≠ .str "u" →
        (onDisconnect typingElsewhere "c").1.typingUsers.get u' =
          typingElsewhere.typingUsers.get u') ∧
      (onDisconnect typingElsewhere "c").1.typingUsers.entries.filter
          (fun e => decide (e.1 ≠ .str "u")) =
        typingElsewhere.typingUsers.entries.filter (fun e => decide (e.1 ≠ .str "u")) ∧
      ∀ e ∈ (onDisconnect typingElsewhere "c").2, e.event ≠ "user-typing" :=
  disconnect_clears_typing_silently typingElsewhere "c" (.str "u") (by decide) (by decide)

/-! ## Sending messages -/

theorem isNullish_of_getProp_ne_undefined (v : JSVal) (name : String)
    (h : v.getProp name ≠ .undefined) : v.isNullish = false := by
  cases v <;> simp_all [JSVal.getProp, JSVal.isNullish]

/-- C14 as stated fails: the payload `{chatId: 'r', content: {toString: 1},
userId: 'u'}` carries `chatId`, `content` and `userId`, but converting `content`
to a string in the log line of line 77 throws inside the `try`, before the emit
of line 79; the `catch` logs, and no `new-message` is emitted. -/
theorem unloggable_message_is_dropped :
    (messageWithOpaqueContent.getProp "chatId" ≠ .undefined ∧
        messageWithOpaqueContent.getProp "content" ≠ .undefined ∧
        messageWithOpaqueContent.getProp "userId" ≠ .undefined) ∧
      onSendMessage twoInRoom "a" messageWithOpaqueContent = (twoInRoom, []) := by
  decide

/-- C14, amended: for a `send-message` payload that carries `chatId`, `content`
and `userId` (whatever else it carries) and whose three values the log line
converts to strings without an exception, the handler leaves the whole state
unchanged and emits exactly one notification: `new-message` with payload
`{chatId: data.chatId, message: data}`, where `message` is the payload as
received, addressed by `io.to(data.chatId)` to the whole room. -/
theorem send_message_relays_payload (s : State) (c : SocketId) (messageData : JSVal)
    (h : messageData.getProp "chatId" ≠ .undefined ∧
      messageData.getProp "content" ≠ .undefined ∧
      messageData.getProp "userId" ≠ .undefined)
    (hlog : (messageData.getProp "chatId").toStringThrows = false ∧
      (messageData.getProp "userId").toStringThrows = false ∧
      (messageData.getProp "content").toStringThrows = false) :
    onSendMessage s c messageData =
      (s, [⟨.room (messageData.getProp "chatId"), "new-message",
        .newMessage (messageData.getProp "chatId") messageData⟩]) := by
  have hl : logLineThrows messageData = false := by
    simp [logLineThrows, hlog.1, hlog.2.1, hlog.2.2]
  exact onSendMessage_ok s c messageData
    (isNullish_of_getProp_ne_undefined messageData "chatId" h.1) hl

theorem send_message_relays_payload_witness :
    onSendMessage twoInRoom "a" fullMessage =
      (twoInRoom, [⟨.room (fullMessage.getProp "chatId"), "new-message",
        .newMessage (fullMessage.getProp "chatId") fullMessage⟩]) :=
  send_message_relays_payload twoInRoom "a" fullMessage (by decide) (by decide)

/-- C15: for every `send-message` payload the handler completes: the event never
yields an error and the state (open sockets included) is unchanged.  The `try`
block throws exactly when the payload is `null` or `undefined` (destructuring,
line 75) or the log line cannot convert `chatId`, `userId` or `content` to a
string (line 77); the error is then caught and nothing is emitted. -/
theorem send_message_never_throws (s : State) (c : SocketId) (messageData : JSVal) :
    step s (.sendMessage c messageData) = .ok (s, (onSendMessage s c messageData).2) ∧
      ((∃ err, sendMessageTry s messageData = .error err) ↔
        (messageData.isNullish = true ∨ logLineThrows messageData = true)) ∧
      (∀ err, sendMessageTry s messageData = .error err →
        onSendMessage s c messageData = (s, [])) := by
  refine ⟨?_, ?_, ?_⟩
  · have h := onSendMessage_state s c messageData
    show Except.ok (onSendMessage s c messageData) = _
    exact congrArg Except.ok (Prod.ext h rfl)
  · cases hn : messageData.isNullish
    · cases hl : logLineThrows messageData
      · simp [sendMessageTry, hn, hl]
      · refine ⟨fun _ => Or.inr rfl, fun _ => ⟨.typeError, ?_⟩⟩
        simp [sendMessageTry, hn, hl]
    · refine ⟨fun _ => Or.inl rfl, fun _ => ⟨.typeError, ?_⟩⟩
      simp [sendMessageTry, hn]
  · intro err h
    simp [onSendMessage, h]

/-! ## Running the sweep twice -/

/-- C18: running the sweep at `now` on the state left by a sweep at `now` changes
nothing and emits nothing, and a sweep changes neither the registry nor the
room membership nor the open sockets. -/
theorem sweep_idempotent (s : State) (now : Int) :
    sweep (sweep s now).1 now = ((sweep s now).1, []) ∧
      (sweep s now).1.onlineUsers = s.onlineUsers ∧
      (sweep s now).1.rooms = s.rooms ∧
      (sweep s now).1.sockets = s.sockets := by
  refine ⟨?_, rfl, rfl, rfl⟩
  obtain ⟨h1, _⟩ := sweep_entries_aux s now
  obtain ⟨g1, g2⟩ := sweep_entries_aux (sweep s now).1 now
  have hstate : (sweep (sweep s now).1 now).1 = (sweep s now).1 := by
    have ht : (sweep (sweep s now).1 now).1.typingUsers = (sweep s now).1.typingUsers := by
      apply JSMap.ext_entries
      rw [g1, h1, List.filter_filter]
      simp
    show ({ (sweep s now).1 with typingUsers := (sweep (sweep s now).1 now).1.typingUsers }
      : State) = (sweep s now).1
    rw [ht]
  have hout : (sweep (sweep s now).1 now).2 = [] := by
    rw [g2, h1, List.filter_filter]
    rw [List.map_eq_nil_iff, List.filter_eq_nil_iff]
    intro e _
    simp only [decide_eq_true_eq, Bool.and_eq_true, not_and]
    intro hgt hle
    exact absurd hle (not_le.mpr hgt)
  exact Prod.ext hstate hout

/-! ## Stopping in another room -/

theorem getEntries_filter_none {V : Type} (l : List (JSVal × V)) (p : JSVal × V → Bool)
    (k : JSVal) (h : getEntries l k = none) : getEntries (l.filter p) k = none := by
  induction l with
  | nil => rfl
  | cons hd tl ih =>
    obtain ⟨k', v'⟩ := hd
    by_cases hk : k' = k
    · simp [getEntries, hk] at h
    · simp only [getEntries, if_neg hk] at h
      by_cases hq : p (k', v') = true
      · rw [List.filter_cons_of_pos hq]
        simp only [getEntries, if_neg hk]
        exact ih h
      · rw [List.filter_cons_of_neg hq]
        exact ih h

theorem get_delete_of_none {V : Type} (m : JSMap V) (k u : JSVal) (h : m.get u = none) :
    (m.delete k).get u = none :=
  getEntries_filter_none m.entries _ u h

theorem sweep_typing_absent (s : State) (u : JSVal) (now : Int)
    (h : s.typingUsers.get u = none) :
    (sweep s now).1.typingUsers.get u = none ∧
      ∀ e ∈ (sweep s now).2, e.payload ≠ .userTyping u false := by
  obtain ⟨h1, h2⟩ := sweep_entries_aux s now
  constructor
  · show getEntries (sweep s now).1.typingUsers.entries u = none
    rw [h1]
    exact getEntries_filter_none _ _ u h
  · intro e he hp
    rw [h2, List.mem_map] at he
    obtain ⟨x, hx, hxe⟩ := he
    have hxm := (List.mem_filter.mp hx).1
    rw [← hxe] at hp
    have hk : x.1 = u := by
      simp only [stopNotice, Payload.userTyping.injEq, and_true] at hp
      exact hp
    have hxr : getEntries s.typingUsers.entries x.1 = some x.2 :=
      getEntries_of_mem _ _ _ s.typingUsers.nodupKeys hxm
    rw [hk] at hxr
    have : s.typingUsers.get u = some x.2 := hxr
    rw [h] at this
    cases this

theorem step_typing_absent (s s' : State) (out : List Emit) (e : Event) (u : JSVal)
    (hs : step s e = .ok (s', out)) (he : e.startsTyping u = false)
    (h : s.typingUsers.get u = none) : s'.typingUsers.get u = none := by
  cases e with
  | connect c => cases hs; exact h
  | userOnline c userId =>
    simp only [step, onUserOnline] at hs
    split at hs <;> cases hs <;> exact h
  | joinChat c chatId => cases hs; exact h
  | leaveChat c chatId => cases hs; exact h
  | typingStart c arg now =>
    have hne : u ≠ arg.getProp "userId" := by
      intro heq
      simp [Event.startsTyping, heq] at he
    simp only [step, onTypingStart] at hs
    split at hs
    · cases hs
    · split at hs
      · cases hs
        show getEntries (setEntries s.typingUsers.entries _ _) u = none
        rw [getEntries_setEntries_ne _ _ u _ hne]
        exact h
      · cases hs; exact h
  | typingStop c arg =>
    simp only [step, onTypingStop] at hs
    split at hs
    · cases hs
    · split at hs
      · cases hs
        exact get_delete_of_none s.typingUsers _ u h
      · cases hs; exact h
  | sendMessage c messageData =>
    simp only [step, Except.ok.injEq] at hs
    have h1 := onSendMessage_state s c messageData
    rw [hs] at h1
    simp only at h1
    rw [h1]; exact h
  | disconnect c =>
    simp only [step, onDisconnect] at hs
    split at hs
    · cases hs
      exact get_delete_of_none s.typingUsers _ u h
    · cases hs; exact h
  | sweep now =>
    simp only [step, Except.ok.injEq] at hs
    have := (sweep_typing_absent s u now h).1
    rw [hs] at this
    exact this

theorem run_typing_absent (u : JSVal) (es : List Event) :
    ∀ (s s' : State) (out : List Emit), run s es = some (s', out) →
      (∀ e ∈ es, e.startsTyping u = false) → s.typingUsers.get u = none →
      s'.typingUsers.get u = none := by
  induction es with
  | nil =>
    intro s s' out hr _ h
    simp only [run, Option.some.injEq, Prod.mk.injEq] at hr
    rw [← hr.1]; exact h
  | cons e es ih =>
    intro s s' out hr hes h
    simp only [run] at hr
    split at hr
    · split at hr
      · rename_i s1 o1 hstep
        split at hr
        · rename_i s2 o2 hrun
          simp only [Option.some.injEq, Prod.mk.injEq] at hr
          rw [← hr.1]
          exact ih s1 s2 o2 hrun (fun x hx => hes x (List.mem_cons_of_mem _ hx))
            (step_typing_absent s s1 o1 e u hstep (hes e (List.mem_cons_self _ _)) h)
        · cases hr
      · cases hr
    · cases hr

/-- C19: for a truthy user `u` with a typing entry for room `r1` and a truthy
room `r2 ≠ r1`, `typing-stop {userId: u, chatId: r2}` on socket `c` deletes the
entry of `u` and its only emission is the `isTyping: false` notification to room
`r2` (excluding `c`), so nothing goes to `r1`.  Afterwards, as long as no
`typing-start` for `u` arrives, `u` has no typing entry and no sweep, at any
time, emits an `isTyping: false` notification for `u`. -/
theorem typing_stop_in_other_room (s : State) (c : SocketId) (arg u r1 r2 : JSVal) (t1 : Int)
    (hu : u.truthy = true) (hr2 : r2.truthy = true) (hne : r2 ≠ r1)
    (hrec : s.typingUsers.get u = some ⟨r1, t1⟩)
    (hau : arg.getProp "userId" = u) (har : arg.getProp "chatId" = r2) :
    ∃ s', onTypingStop s c arg =
        .ok (s', [⟨.roomExcept r2 c, "user-typing", .userTyping u false⟩]) ∧
      Target.roomExcept r2 c ≠ Target.roomExcept r1 c ∧
      (u, (⟨r1, t1⟩ : TypingRec)) ∈ s.typingUsers.entries ∧
      (u, (⟨r1, t1⟩ : TypingRec)) ∉ s'.typingUsers.entries ∧
      s'.typingUsers.get u = none ∧
      ∀ (es : List Event) (s'' : State) (out : List Emit),
        (∀ e ∈ es, e.startsTyping u = false) → run s' es = some (s'', out) →
        s''.typingUsers.get u = none ∧
          ∀ now : Int, ∀ e ∈ (sweep s'' now).2, e.payload ≠ .userTyping u false := by
  have hstop := (typing_stop_clears s c arg u r2 hu hr2 hau har)
  refine ⟨_, hstop.1, ?_, mem_of_getEntries _ u _ hrec, ?_, hstop.2, ?_⟩
  · intro h
    injection h with h1 _
    exact hne h1
  · intro hmem
    have hg := getEntries_of_mem _ u _ (s.typingUsers.delete u).nodupKeys hmem
    have hn : getEntries (s.typingUsers.delete u).entries u = none := hstop.2
    rw [hn] at hg
    cases hg
  · intro es s'' out hes hrun
    have habs := run_typing_absent u es _ s'' out hrun hes hstop.2
    exact ⟨habs, fun now => (sweep_typing_absent s'' u now habs).2⟩

theorem typing_stop_in_other_room_witness :
    ∃ s', onTypingStop typingElsewhere "c" typingPayload =
        .ok (s', [⟨.roomExcept (.str "r") "c", "user-typing", .userTyping (.str "u") false⟩]) ∧
      Target.roomExcept (.str "r") "c" ≠ Target.roomExcept (.str "q") "c" ∧
      (.str "u", (⟨.str "q", 1000⟩ : TypingRec)) ∈ typingElsewhere.typingUsers.entries ∧
      (.str "u", (⟨.str "q", 1000⟩ : TypingRec)) ∉ s'.typingUsers.entries ∧
      s'.typingUsers.get (.str "u") = none ∧
      ∀ (es : List Event) (s'' : State) (out : List Emit),
        (∀ e ∈ es, e.startsTyping (.str "u") = false) → run s' es = some (s'', out) →
        s''.typingUsers.get (.str "u") = none ∧
          ∀ now : Int, ∀ e ∈ (sweep s'' now).2, e.payload ≠ .userTyping (.str "u") false :=
  typing_stop_in_other_room typingElsewhere "c" typingPayload (.str "u") (.str "q") (.str "r")
    1000 (by decide) (by decide) (by decide) (by decide) (by decide) (by decide)

/-! ## Users per socket -/

theorem step_registry_origin (s s' : State) (out : List Emit) (e : Event) (u : JSVal)
    (c : SocketId) (hs : step s e = .ok (s', out)) (hm : (u, c) ∈ s'.onlineUsers.entries) :
    (u, c) ∈ s.onlineUsers.entries ∨ e = .userOnline c u := by
  cases e with
  | connect c' => cases hs; exact Or.inl hm
  | userOnline c' userId =>
    simp only [step, onUserOnline] at hs
    split at hs
    · cases hs
      rcases mem_setEntries s.onlineUsers.entries userId c' (u, c) hm with h | h
      · exact Or.inl h
      · right
        cases h
        rfl
    · cases hs; exact Or.inl hm
  | joinChat c' chatId => cases hs; exact Or.inl hm
  | leaveChat c' chatId => cases hs; exact Or.inl hm
  | typingStart c' arg now =>
    rw [onTypingStart_onlineUsers s s' c' arg now out hs] at hm; exact Or.inl hm
  | typingStop c' arg =>
    rw [onTypingStop_onlineUsers s s' c' arg out hs] at hm; exact Or.inl hm
  | sendMessage c' messageData =>
    simp only [step, Except.ok.injEq] at hs
    have h1 := onSendMessage_state s c' messageData
    rw [hs] at h1
    simp only at h1
    rw [h1] at hm; exact Or.inl hm
  | disconnect c' =>
    simp only [step, onDisconnect] at hs
    split at hs
    · cases hs
      exact Or.inl (List.mem_of_mem_filter hm)
    · cases hs; exact Or.inl hm
  | sweep now => cases hs; exact Or.inl hm

theorem run_registry_origin (u : JSVal) (c : SocketId) (es : List Event) :
    ∀ (s s' : State) (out : List Emit), run s es = some (s', out) →
      (u, c) ∈ s'.onlineUsers.entries →
      (u, c) ∈ s.onlineUsers.entries ∨ Event.userOnline c u ∈ es := by
  induction es with
  | nil =>
    intro s s' out hr hm
    simp only [run, Option.some.injEq, Prod.mk.injEq] at hr
    rw [← hr.1] at hm; exact Or.inl hm
  | cons e es ih =>
    intro s s' out hr hm
    simp only [run] at hr
    split at hr
    · split at hr
      · rename_i s1 o1 hstep
        split at hr
        · rename_i s2 o2 hrun
          simp only [Option.some.injEq, Prod.mk.injEq] at hr
          rw [← hr.1] at hm
          rcases ih s1 s2 o2 hrun hm with h | h
          · rcases step_registry_origin s s1 o1 e u c hstep h with h' | h'
            · exact Or.inl h'
            · exact Or.inr (h' ▸ List.mem_cons_self _ _)
          · exact Or.inr (List.mem_cons_of_mem _ h)
        · cases hr
      · cases hr
    · cases hr

/-- C16 as stated fails: after socket `"c"` announces users `"a"` and `"b"`, the
registry maps both of them to `"c"`. -/
theorem two_users_share_a_socket :
    (JSVal.str "a" ≠ JSVal.str "b") ∧
      (run State.init twoUsersAnnounced).map (fun r => r.1.onlineUsers.entries) =
        some [(.str "a", "c"), (.str "b", "c")] := by
  decide

/-- C16, amended: in every state reached by a trace from the initial state, a
user is mapped to at most one socket, and every registry entry `(u, c)` stems
from a `user-online(u)` sent on `c`; so two distinct users are mapped to the
same socket only if that socket announced both of them. -/
theorem registry_entries_stem_from_announcements (es : List Event) (s : State)
    (out : List Emit) (h : run State.init es = some (s, out)) :
    (∀ u c1 c2, (u, c1) ∈ s.onlineUsers.entries → (u, c2) ∈ s.onlineUsers.entries →
        c1 = c2) ∧
      (∀ u c, (u, c) ∈ s.onlineUsers.entries → Event.userOnline c u ∈ es) ∧
      (∀ u1 u2 c, u1 ≠ u2 → (u1, c) ∈ s.onlineUsers.entries →
        (u2, c) ∈ s.onlineUsers.entries →
        Event.userOnline c u1 ∈ es ∧ Event.userOnline c u2 ∈ es) := by
  have horigin : ∀ u c, (u, c) ∈ s.onlineUsers.entries → Event.userOnline c u ∈ es := by
    intro u c hm
    rcases run_registry_origin u c es State.init s out h hm with h1 | h1
    · simp [State.init, JSMap.empty] at h1
    · exact h1
  refine ⟨?_, horigin, ?_⟩
  · intro u c1 c2 h1 h2
    have g1 := getEntries_of_mem _ u c1 s.onlineUsers.nodupKeys h1
    have g2 := getEntries_of_mem _ u c2 s.onlineUsers.nodupKeys h2
    exact Option.some.inj (g1.symm.trans g2)
  · intro u1 u2 c _ h1 h2
    exact ⟨horigin u1 c h1, horigin u2 c h2⟩

theorem registry_entries_stem_from_announcements_witness :
    (∀ u c1 c2, (u, c1) ∈ registryAfterTwoUsers.onlineUsers.entries →
        (u, c2) ∈ registryAfterTwoUsers.onlineUsers.entries → c1 = c2) ∧
      (∀ u c, (u, c) ∈ registryAfterTwoUsers.onlineUsers.entries →
        Event.userOnline c u ∈ twoUsersAnnounced) ∧
      (∀ u1 u2 c, u1 ≠ u2 → (u1, c) ∈ registryAfterTwoUsers.onlineUsers.entries →
        (u2, c) ∈ registryAfterTwoUsers.onlineUsers.entries →
        Event.userOnline c u1 ∈ twoUsersAnnounced ∧
          Event.userOnline c u2 ∈ twoUsersAnnounced) :=
  registry_entries_stem_from_announcements twoUsersAnnounced registryAfterTwoUsers
    [⟨.all, "user-status-change", .userStatus (.str "a") "online"⟩,
     ⟨.all, "user-status-change", .userStatus (.str "b") "online"⟩]
    (by decide)

/-! ## Age of typing entries under the 5000 ms timer -/

theorem sweep_remaining_fresh (s : State) (now : Int) :
    ∀ e ∈ (sweep s now).1.typingUsers.entries,
      e ∈ s.typingUsers.entries ∧ now - e.2.timestamp ≤ 5000 := by
  intro e he
  rw [(sweep_entries_aux s now).1] at he
  obtain ⟨h1, h2⟩ := List.mem_filter.mp he
  exact ⟨h1, by simpa only [decide_eq_true_eq] using h2⟩

theorem sweep_removes_stale (s : State) (u : JSVal) (r : TypingRec) (now : Int)
    (hg : s.typingUsers.get u = some r) (hx : now - r.timestamp > 5000) :
    (sweep s now).1.typingUsers.get u = none ∧ stopNotice (u, r) ∈ (sweep s now).2 := by
  constructor
  · cases hq : (sweep s now).1.typingUsers.get u with
    | none => rfl
    | some r' =>
      have hm := sweep_remaining_fresh s now (u, r') (mem_of_getEntries _ u r' hq)
      have hg' := getEntries_of_mem _ u r' s.typingUsers.nodupKeys hm.1
      have hrr : r' = r := Option.some.inj (hg'.symm.trans hg)
      rw [hrr] at hm
      exact absurd hm.2 (not_le.mpr hx)
  · rw [(sweep_entries_aux s now).2]
    refine List.mem_map.mpr ⟨(u, r), List.mem_filter.mpr ⟨mem_of_getEntries _ u r hg, ?_⟩, rfl⟩
    simp only [decide_eq_true_eq]
    exact hx

theorem step_typing_entries_subset (s s' : State) (out : List Emit) (e : Event)
    (hs : step s e = .ok (s', out)) (hsw : ∀ now, e ≠ .sweep now)
    (hst : ∀ c arg now, e ≠ .typingStart c arg now) :
    ∀ x ∈ s'.typingUsers.entries, x ∈ s.typingUsers.entries := by
  cases e with
  | connect c => cases hs; exact fun x hx => hx
  | userOnline c userId =>
    simp only [step, onUserOnline] at hs
    split at hs <;> cases hs <;> exact fun x hx => hx
  | joinChat c chatId => cases hs; exact fun x hx => hx
  | leaveChat c chatId => cases hs; exact fun x hx => hx
  | typingStart c arg now => exact absurd rfl (hst c arg now)
  | typingStop c arg =>
    simp only [step, onTypingStop] at hs
    split at hs
    · cases hs
    · split at hs
      · cases hs
        exact fun x hx => List.mem_of_mem_filter hx
      · cases hs; exact fun x hx => hx
  | sendMessage c messageData =>
    simp only [step, Except.ok.injEq] at hs
    have h1 := onSendMessage_state s c messageData
    rw [hs] at h1
    simp only at h1
    rw [h1]; exact fun x hx => hx
  | disconnect c =>
    simp only [step, onDisconnect] at hs
    split at hs
    · cases hs
      exact fun x hx => List.mem_of_mem_filter hx
    · cases hs; exact fun x hx => hx
  | sweep now => exact absurd rfl (hsw now)

theorem clockInv_step (k : Clocked) (s' : State) (out : List Emit) (e : Event)
    (ht : e.onTime k = true) (hs : step k.state e = .ok (s', out)) (hinv : ClockInv k) :
    ClockInv ⟨s', (k.clockAfter e).1, (k.clockAfter e).2⟩ := by
  obtain ⟨h1, h2, h3⟩ := hinv
  by_cases hsw : ∃ now, e = .sweep now
  · obtain ⟨now, rfl⟩ := hsw
    simp only [Event.onTime, decide_eq_true_eq] at ht
    simp only [step, Except.ok.injEq] at hs
    have hs1 : s' = (sweep k.state now).1 := by rw [hs]
    refine ⟨?_, ?_, ?_⟩
    · show now ≤ now + 5000
      omega
    · show now + 5000 ≤ now + 5000
      omega
    · intro x hx
      rw [hs1] at hx
      obtain ⟨hm, hf⟩ := sweep_remaining_fresh k.state now x hx
      have := h3 x hm
      show x.2.timestamp ≤ now ∧ now + 5000 - x.2.timestamp ≤ 10000
      omega
  · by_cases hst : ∃ c arg now, e = .typingStart c arg now
    · obtain ⟨c, arg, now, rfl⟩ := hst
      simp only [Event.onTime, decide_eq_true_eq] at ht
      refine ⟨?_, ?_, ?_⟩
      · show now ≤ k.nextTick
        exact ht.2
      · show k.nextTick ≤ now + 5000
        omega
      · intro x hx
        show x.2.timestamp ≤ now ∧ k.nextTick - x.2.timestamp ≤ 10000
        simp only [step, onTypingStart] at hs
        split at hs
        · cases hs
        · split at hs
          · cases hs
            rcases mem_setEntries _ _ _ x hx with hm | hm
            · have := h3 x hm
              omega
            · rw [hm]
              show now ≤ now ∧ k.nextTick - now ≤ 10000
              omega
          · cases hs
            have := h3 x hx
            omega
    · have hsub := step_typing_entries_subset k.state s' out e hs
        (fun now h => hsw ⟨now, h⟩) (fun c arg now h => hst ⟨c, arg, now, h⟩)
      have hclock : k.clockAfter e = (k.clock, k.nextTick) := by
        cases e with
        | sweep now => exact absurd ⟨now, rfl⟩ hsw
        | typingStart c arg now => exact absurd ⟨c, arg, now, rfl⟩ hst
        | _ => rfl
      rw [hclock]
      exact ⟨h1, h2, fun x hx => h3 x (hsub x hx)⟩

theorem clockInv_run (es : List Event) :
    ∀ (k k' : Clocked) (out : List Emit), clockedRun k es = some (k', out) →
      ClockInv k → ClockInv k' := by
  induction es with
  | nil =>
    intro k k' out hr hinv
    simp only [clockedRun, Option.some.injEq, Prod.mk.injEq] at hr
    rw [← hr.1]; exact hinv
  | cons e es ih =>
    intro k k' out hr hinv
    simp only [clockedRun] at hr
    split at hr
    · rename_i hen
      split at hr
      · rename_i s1 o1 hstep
        split at hr
        · rename_i k2 o2 hrun
          simp only [Option.some.injEq, Prod.mk.injEq] at hr
          rw [← hr.1]
          have hon : e.onTime k = true := by
            simp only [Bool.and_eq_true] at hen
            exact hen.2
          exact ih _ k2 o2 hrun (clockInv_step k s1 o1 e hon hstep hinv)
        · cases hr
      · cases hr
    · cases hr

theorem clockInv_init (start : Int) : ClockInv (Clocked.init start) := by
  refine ⟨?_, ?_, ?_⟩
  · show start ≤ start + 5000
    omega
  · show start + 5000 ≤ start + 5000
    omega
  · intro e he
    simp [Clocked.init, State.init, JSMap.empty] at he

/-- C11: let the timer fire exactly every 5000 ms, the process having started at
any time `start`, and let `k` be the server and timer after any run.  Then the
next tick is at most 5000 ms after the latest timed event; every typing entry
has age at most 10000 ms at every instant up to the next tick; the first tick
later than `timestamp + 5000` comes no later than `timestamp + 10000`; a sweep
at a time `now` with `now - timestamp > 5000` removes the entry, a sweep with
`now - timestamp <= 5000` keeps it, and after every sweep each remaining entry
has age at most 5000 ms. -/
theorem typing_age_bounded (start : Int) (es : List Event) (k : Clocked) (out : List Emit)
    (h : clockedRun (Clocked.init start) es = some (k, out)) :
    (k.clock ≤ k.nextTick ∧ k.nextTick ≤ k.clock + 5000) ∧
      (∀ e ∈ k.state.typingUsers.entries,
        (∀ τ : Int, τ ≤ k.nextTick → τ - e.2.timestamp ≤ 10000) ∧
        ∃ n : Nat, e.2.timestamp + 5000 < k.nextTick + 5000 * (n : Int) ∧
          k.nextTick + 5000 * (n : Int) ≤ e.2.timestamp + 10000 ∧
          ∀ m : Nat, m < n → k.nextTick + 5000 * (m : Int) ≤ e.2.timestamp + 5000) ∧
      (∀ (s : State) (u : JSVal) (r : TypingRec) (now : Int),
        s.typingUsers.get u = some r → now - r.timestamp > 5000 →
        (sweep s now).1.typingUsers.get u = none) ∧
      (∀ (s : State) (u : JSVal) (r : TypingRec) (now : Int),
        s.typingUsers.get u = some r → now - r.timestamp ≤ 5000 →
        (sweep s now).1.typingUsers.get u = some r) ∧
      (∀ (s : State) (now : Int), ∀ e ∈ (sweep s now).1.typingUsers.entries,
        now - e.2.timestamp ≤ 5000) := by
  obtain ⟨h1, h2, h3⟩ := clockInv_run es _ k out h (clockInv_init start)
  refine ⟨⟨h1, h2⟩, ?_, ?_, ?_, ?_⟩
  · intro e he
    obtain ⟨g1, g2⟩ := h3 e he
    refine ⟨fun τ hτ => by omega, ?_⟩
    by_cases c0 : e.2.timestamp + 5000 < k.nextTick
    · exact ⟨0, by omega, by omega, fun m hm => absurd hm (Nat.not_lt_zero m)⟩
    · by_cases c1 : e.2.timestamp < k.nextTick
      · exact ⟨1, by omega, by omega, fun m hm => by omega⟩
      · exact ⟨2, by omega, by omega, fun m hm => by omega⟩
  · intro s u r now hg hx
    exact (sweep_removes_stale s u r now hg hx).1
  · intro s u r now hg hf
    exact (sweep_keeps_fresh s u r now hg hf).1
  · intro s now e he
    exact (sweep_remaining_fresh s now e he).2

theorem typing_age_bounded_witness :
    (afterFirstSweep.clock ≤ afterFirstSweep.nextTick ∧
        afterFirstSweep.nextTick ≤ afterFirstSweep.clock + 5000) ∧
      (∀ e ∈ afterFirstSweep.state.typingUsers.entries,
        (∀ τ : Int, τ ≤ afterFirstSweep.nextTick → τ - e.2.timestamp ≤ 10000) ∧
        ∃ n : Nat, e.2.timestamp + 5000 < afterFirstSweep.nextTick + 5000 * (n : Int) ∧
          afterFirstSweep.nextTick + 5000 * (n : Int) ≤ e.2.timestamp + 10000 ∧
          ∀ m : Nat, m < n →
            afterFirstSweep.nextTick + 5000 * (m : Int) ≤ e.2.timestamp + 5000) ∧
      (∀ (s : State) (u : JSVal) (r : TypingRec) (now : Int),
        s.typingUsers.get u = some r → now - r.timestamp > 5000 →
        (sweep s now).1.typingUsers.get u = none) ∧
      (∀ (s : State) (u : JSVal) (r : TypingRec) (now : Int),
        s.typingUsers.get u = some r → now - r.timestamp ≤ 5000 →
        (sweep s now).1.typingUsers.get u = some r) ∧
      (∀ (s : State) (now : Int), ∀ e ∈ (sweep s now).1.typingUsers.entries,
        now - e.2.timestamp ≤ 5000) :=
  typing_age_bounded 0 upToFirstSweep afterFirstSweep
    [⟨.roomExcept (.str "r") "c", "user-typing", .userTyping (.str "u") true⟩] (by decide)

/-! ## The end-to-end typing scenario -/

theorem step_keeps_record (s s' : State) (out : List Emit) (e : Event) (u : JSVal)
    (r : TypingRec) (hs : step s e = .ok (s', out)) (hsig : e.isTypingSignal u = false)
    (hdis : e.disconnectsUser u s = false) (hsw : ∀ now, e ≠ .sweep now)
    (h : s.typingUsers.get u = some r) : s'.typingUsers.get u = some r := by
  cases e with
  | connect c => cases hs; exact h
  | userOnline c userId =>
    simp only [step, onUserOnline] at hs
    split at hs <;> cases hs <;> exact h
  | joinChat c chatId => cases hs; exact h
  | leaveChat c chatId => cases hs; exact h
  | typingStart c arg now =>
    have hne : u ≠ arg.getProp "userId" := by
      intro heq
      simp [Event.isTypingSignal, heq] at hsig
    simp only [step, onTypingStart] at hs
    split at hs
    · cases hs
    · split at hs
      · cases hs
        show getEntries (setEntries s.typingUsers.entries _ _) u = some r
        rw [getEntries_setEntries_ne _ _ u _ hne]
        exact h
      · cases hs; exact h
  | typingStop c arg =>
    have hne : u ≠ arg.getProp "userId" := by
      intro heq
      simp [Event.isTypingSignal, heq] at hsig
    simp only [step, onTypingStop] at hs
    split at hs
    · cases hs
    · split at hs
      · cases hs
        show getEntries (deleteEntries s.typingUsers.entries _) u = some r
        rw [getEntries_deleteEntries_ne _ _ u hne]
        exact h
      · cases hs; exact h
  | sendMessage c messageData =>
    simp only [step, Except.ok.injEq] at hs
    have h1 := onSendMessage_state s c messageData
    rw [hs] at h1
    simp only at h1
    rw [h1]; exact h
  | disconnect c =>
    have hne : u ≠ findUserBySocket s.onlineUsers.entries c := by
      intro heq
      simp [Event.disconnectsUser, ← heq] at hdis
    simp only [step, onDisconnect] at hs
    split at hs
    · cases hs
      show getEntries (deleteEntries s.typingUsers.entries _) u = some r
      rw [getEntries_deleteEntries_ne _ _ u hne]
      exact h
    · cases hs; exact h
  | sweep now => exact absurd rfl (hsw now)

theorem clockAfter_nextTick (k : Clocked) (e : Event) (hsw : ∀ now, e ≠ .sweep now) :
    (k.clockAfter e).2 = k.nextTick := by
  cases e with
  | sweep now => exact absurd rfl (hsw now)
  | _ => rfl

theorem trace_reaches_expiry (u : JSVal) (r : TypingRec) (es : List Event) :
    ∀ (k : Clocked) (tr : List TimedStep), clockedTrace k es = some tr →
      k.state.typingUsers.get u = some r → k.nextTick ≤ r.timestamp + 10000 →
      (∀ st ∈ tr, st.event.isTypingSignal u = false) →
      (∀ st ∈ tr, st.event.disconnectsUser u st.before.state = false) →
      (∃ st ∈ tr, r.timestamp + 10000 < st.after.nextTick) →
      ∃ st ∈ tr, st.event = .sweep st.after.clock ∧ r.timestamp + 5000 < st.after.clock ∧
        st.after.clock ≤ r.timestamp + 10000 ∧ stopNotice (u, r) ∈ st.out := by
  induction es with
  | nil =>
    intro k tr htr _ _ _ _ hex
    simp only [clockedTrace, Option.some.injEq] at htr
    obtain ⟨st, hst, _⟩ := hex
    rw [← htr] at hst
    cases hst
  | cons e es ih =>
    intro k tr htr hg hn hsig hdis hex
    simp only [clockedTrace] at htr
    split at htr
    · rename_i hen
      split at htr
      · rename_i s1 o1 hstep
        split at htr
        · rename_i tr' htr'
          simp only [Option.some.injEq] at htr
          have hon : e.onTime k = true := by
            simp only [Bool.and_eq_true] at hen
            exact hen.2
          subst htr
          have hsig0 := hsig _ (List.mem_cons_self _ _)
          have hdis0 := hdis _ (List.mem_cons_self _ _)
          simp only at hsig0 hdis0
          have hrest : ∀ (k1 : Clocked), k1.state = s1 → k1 = ⟨s1, (k.clockAfter e).1,
              (k.clockAfter e).2⟩ → k1.state.typingUsers.get u = some r →
              k1.nextTick ≤ r.timestamp + 10000 →
              ∃ st ∈ (⟨k, e, ⟨s1, (k.clockAfter e).1, (k.clockAfter e).2⟩, o1⟩ :: tr'),
                st.event = .sweep st.after.clock ∧ r.timestamp + 5000 < st.after.clock ∧
                st.after.clock ≤ r.timestamp + 10000 ∧ stopNotice (u, r) ∈ st.out := by
            intro k1 _ hk1 hg1 hn1
            subst hk1
            have hex' : ∃ st ∈ tr', r.timestamp + 10000 < st.after.nextTick := by
              obtain ⟨st, hst, hlt⟩ := hex
              rcases List.mem_cons.mp hst with h0 | h0
              · subst h0
                simp only at hlt hn1
                omega
              · exact ⟨st, h0, hlt⟩
            obtain ⟨st, hst, hres⟩ := ih _ tr' htr' hg1 hn1
              (fun st hst => hsig st (List.mem_cons_of_mem _ hst))
              (fun st hst => hdis st (List.mem_cons_of_mem _ hst)) hex'
            exact ⟨st, List.mem_cons_of_mem _ hst, hres⟩
          by_cases hsw : ∃ now, e = .sweep now
          · obtain ⟨now, rfl⟩ := hsw
            simp only [Event.onTime, decide_eq_true_eq] at hon
            simp only [step, Except.ok.injEq] at hstep
            have hs1 : (sweep k.state now).1 = s1 := by rw [hstep]
            have ho1 : (sweep k.state now).2 = o1 := by rw [hstep]
            by_cases hx : now - r.timestamp > 5000
            · refine ⟨_, List.mem_cons_self _ _, rfl, ?_, ?_, ?_⟩
              · show r.timestamp + 5000 < now
                omega
              · show now ≤ r.timestamp + 10000
                omega
              · show stopNotice (u, r) ∈ o1
                rw [← ho1]
                exact (sweep_removes_stale k.state u r now hg hx).2
            · refine hrest _ rfl rfl ?_ ?_
              · show s1.typingUsers.get u = some r
                rw [← hs1]
                exact (sweep_keeps_fresh k.state u r now hg (not_lt.mp hx)).1
              · show now + 5000 ≤ r.timestamp + 10000
                omega
          · have hsw' : ∀ now, e ≠ .sweep now := fun now h => hsw ⟨now, h⟩
            refine hrest _ rfl rfl ?_ ?_
            · exact step_keeps_record k.state s1 o1 e u r hstep hsig0 hdis0 hsw' hg
            · show (k.clockAfter e).2 ≤ r.timestamp + 10000
              rw [clockAfter_nextTick k e hsw']
              exact hn
        · cases htr
      · cases htr
    · cases htr

/-- C12 as stated fails, in three ways.  With `"A"` and `"B"` in `"room1"`, a
`typing-start` from `"A"` at time 0 and the timer firing at 4000 and next at
9000, all that is emitted up to time 6000 is the `isTyping: true` notification.
If `"A"` has announced itself as `'u1'` and disconnects after the
`typing-start`, the typing entry is deleted without a notification and no sweep
ever emits `isTyping: false`, although no typing signal for `'u1'` arrived.  If
`"B"` leaves `"room1"` after the `typing-start`, the `isTyping: false`
notification of the sweep at 9000 is not sent to `"B"`. -/
theorem stop_notice_not_guaranteed_by_6000 :
    ((clockedRun bothInRoom1 [.typingStart "A" u1InRoom1 0, .sweep 4000]).map
          (fun r => (r.1.clock, r.1.nextTick, r.2)) =
        some (4000, 9000, [u1StartNotice]) ∧
      (0 : Int) + 6000 < 9000) ∧
      (clockedRun bothInRoom1
          [.userOnline "A" (.str "u1"), .typingStart "A" u1InRoom1 0, .disconnect "A",
            .sweep 4000, .sweep 9000, .sweep 14000]).map (fun r => (r.1.nextTick, r.2)) =
        some (19000,
          [⟨.all, "user-status-change", .userStatus (.str "u1") "online"⟩, u1StartNotice,
            ⟨.all, "user-status-change", .userStatus (.str "u1") "offline"⟩]) ∧
      (clockedTrace bothInRoom1
          [.typingStart "A" u1InRoom1 0, .leaveChat "B" (.str "room1"), .sweep 4000,
            .sweep 9000]).map (sentTo "B") =
        some [[(u1StartNotice, true)], [], [], [(u1StopNotice, false)]] := by
  decide

/-- C12, amended: let socket `B` be in `"room1"`, the timer fire every 5000 ms
at any phase, and another socket `A` send `typing-start {userId: 'u1', chatId:
'room1'}` at time `t`.  Then the `isTyping: true` notification goes to `B` and
not to `A`, and the first tick later than `t + 5000` comes no later than
`t + 10000`.  In every run that follows, whatever other events it contains, if
no typing signal for `'u1'` arrives, the socket `'u1'` is resolved from does not
disconnect, and `B` stays connected and in `"room1"`, then once the ticks due by
`t + 10000` have fired, a sweep at a time in `(t + 5000, t + 10000]` has emitted
`user-typing {userId: 'u1', isTyping: false}` to `"room1"`, and `B` was among
its recipients. -/
theorem typing_scenario_expires_within_10000 (k : Clocked) (A B : SocketId) (t : Int)
    (hAB : A ≠ B) (hB : isMember k.state.rooms (.str "room1") B = true)
    (hper : k.nextTick ≤ k.clock + 5000) (ht1 : k.clock ≤ t) (ht2 : t ≤ k.nextTick) :
    ∃ s1, onTypingStart k.state A u1InRoom1 t =
        .ok (s1, [⟨.roomExcept (.str "room1") A, "user-typing",
          .userTyping (.str "u1") true⟩]) ∧
      delivers s1 (.roomExcept (.str "room1") A) B = true ∧
      delivers s1 (.roomExcept (.str "room1") A) A = false ∧
      (∃ n : Nat, t + 5000 < k.nextTick + 5000 * (n : Int) ∧
        k.nextTick + 5000 * (n : Int) ≤ t + 10000 ∧
        ∀ m : Nat, m < n → k.nextTick + 5000 * (m : Int) ≤ t + 5000) ∧
      ∀ (es : List Event) (tr : List TimedStep),
        clockedTrace ⟨s1, t, k.nextTick⟩ es = some tr →
        (∀ st ∈ tr, st.event.isTypingSignal (.str "u1") = false) →
        (∀ st ∈ tr, st.event.disconnectsUser (.str "u1") st.before.state = false) →
        (∀ st ∈ tr, isMember st.after.state.rooms (.str "room1") B = true ∧
          B ∈ st.after.state.sockets) →
        (∃ st ∈ tr, t + 10000 < st.after.nextTick) →
        ∃ st ∈ tr, st.event = .sweep st.after.clock ∧ t + 5000 < st.after.clock ∧
          st.after.clock ≤ t + 10000 ∧
          (⟨.room (.str "room1"), "user-typing", .userTyping (.str "u1") false⟩ : Emit)
            ∈ st.out ∧
          delivers st.after.state (.room (.str "room1")) B = true := by
  have hstart := onTypingStart_ok k.state A u1InRoom1 t (by decide) (by decide)
  have hp1 : u1InRoom1.getProp "userId" = .str "u1" := by decide
  have hp2 : u1InRoom1.getProp "chatId" = .str "room1" := by decide
  rw [hp1, hp2] at hstart
  refine ⟨_, hstart, ?_, ?_, ?_, ?_⟩
  · simp [delivers, hB, hAB.symm]
  · simp [delivers]
  · by_cases c1 : t < k.nextTick
    · exact ⟨1, by omega, by omega, fun m hm => by omega⟩
    · exact ⟨2, by omega, by omega, fun m hm => by omega⟩
  · intro es tr htr hsig hdis hstay hex
    have hg : ({ k.state with
          typingUsers := k.state.typingUsers.set (.str "u1") ⟨.str "room1", t⟩ } : State
        ).typingUsers.get (.str "u1") = some ⟨.str "room1", t⟩ :=
      getEntries_setEntries_self _ _ _
    obtain ⟨st, hst, h1, h2, h3, h4⟩ := trace_reaches_expiry (.str "u1") ⟨.str "room1", t⟩ es
      _ tr htr hg (by show k.nextTick ≤ t + 10000; omega) hsig hdis hex
    exact ⟨st, hst, h1, h2, h3, h4, (hstay st hst).1⟩

theorem typing_scenario_expires_within_10000_witness :
    ∃ s1, onTypingStart bothInRoom1.state "A" u1InRoom1 0 =
        .ok (s1, [⟨.roomExcept (.str "room1") "A", "user-typing",
          .userTyping (.str "u1") true⟩]) ∧
      delivers s1 (.roomExcept (.str "room1") "A") "B" = true ∧
      delivers s1 (.roomExcept (.str "room1") "A") "A" = false ∧
      (∃ n : Nat, (0 : Int) + 5000 < bothInRoom1.nextTick + 5000 * (n : Int) ∧
        bothInRoom1.nextTick + 5000 * (n : Int) ≤ 0 + 10000 ∧
        ∀ m : Nat, m < n → bothInRoom1.nextTick + 5000 * (m : Int) ≤ 0 + 5000) ∧
      ∀ (es : List Event) (tr : List TimedStep),
        clockedTrace ⟨s1, 0, bothInRoom1.nextTick⟩ es = some tr →
        (∀ st ∈ tr, st.event.isTypingSignal (.str "u1") = false) →
        (∀ st ∈ tr, st.event.disconnectsUser (.str "u1") st.before.state = false) →
        (∀ st ∈ tr, isMember st.after.state.rooms (.str "room1") "B" = true ∧
          "B" ∈ st.after.state.sockets) →
        (∃ st ∈ tr, (0 : Int) + 10000 < st.after.nextTick) →
        ∃ st ∈ tr, st.event = .sweep st.after.clock ∧ (0 : Int) + 5000 < st.after.clock ∧
          st.after.clock ≤ 0 + 10000 ∧
          (⟨.room (.str "room1"), "user-typing", .userTyping (.str "u1") false⟩ : Emit)
            ∈ st.out ∧
          delivers st.after.state (.room (.str "room1")) "B" = true :=
  typing_scenario_expires_within_10000 bothInRoom1 "A" "B" 0 (by decide) (by decide)
    (by decide) (by decide) (by decide)

theorem stop_notice_despite_other_traffic :
    (clockedTrace bothInRoom1
        [.typingStart "A" u1InRoom1 0, .sendMessage "B" fullMessage, .sweep 4000,
          .joinChat "A" (.str "r"), .typingStart "B" typingPayload 5000,
          .sweep 9000]).map (sentTo "B") =
      some [[(u1StartNotice, true)],
        [(⟨.room (.str "r"), "new-message", .newMessage (.str "r") fullMessage⟩, false)],
        [], [],
        [(⟨.roomExcept (.str "r") "B", "user-typing", .userTyping (.str "u") true⟩, false)],
        [(u1StopNotice, true)]] := by
  decide

/-! ## Room membership and the closing of a socket -/

theorem onTypingStart_frame (s s' : State) (c : SocketId) (arg : JSVal) (now : Int)
    (out : List Emit) (h : onTypingStart s c arg now = .ok (s', out)) :
    s'.rooms = s.rooms ∧ s'.sockets = s.sockets := by
  unfold onTypingStart at h
  split at h
  · cases h
  · simp only at h
    split at h <;> cases h <;> exact ⟨rfl, rfl⟩

theorem onTypingStop_frame (s s' : State) (c : SocketId) (arg : JSVal)
    (out : List Emit) (h : onTypingStop s c arg = .ok (s', out)) :
    s'.rooms = s.rooms ∧ s'.sockets = s.sockets := by
  unfold onTypingStop at h
  split at h
  · cases h
  · simp only at h
    split at h <;> cases h <;> exact ⟨rfl, rfl⟩

theorem onDisconnect_frame (s : State) (c : SocketId) :
    (onDisconnect s c).1.rooms = s.rooms ∧ (onDisconnect s c).1.sockets = s.sockets := by
  unfold onDisconnect
  simp only
  split <;> exact ⟨rfl, rfl⟩

theorem members_open_step
    (leaveAll : List (SocketId × JSVal) → SocketId → List (SocketId × JSVal))
    (hclear : ∀ rooms c r, (c, r) ∉ leaveAll rooms c)
    (hkeep : ∀ rooms c x, x ∈ leaveAll rooms c → x ∈ rooms)
    (s s' : State) (out : List Emit) (e : Event) (hen : e.enabled s = true)
    (hs : stepWith leaveAll s e = .ok (s', out)) (h : ∀ x ∈ s.rooms, x.1 ∈ s.sockets) :
    ∀ x ∈ s'.rooms, x.1 ∈ s'.sockets := by
  cases e with
  | connect c =>
    cases hs
    intro x hx
    exact List.mem_append_left _ (h x hx)
  | userOnline c userId =>
    simp only [stepWith, step, onUserOnline] at hs
    split at hs <;> cases hs <;> exact h
  | joinChat c chatId =>
    simp only [Event.enabled, decide_eq_true_eq] at hen
    cases hs
    intro x hx
    simp only [onJoinChat, joinRoom] at hx
    split at hx
    · exact h x hx
    · rcases List.mem_append.mp hx with h1 | h1
      · exact h x h1
      · rw [List.mem_singleton] at h1
        rw [h1]
        exact hen
  | leaveChat c chatId =>
    cases hs
    intro x hx
    exact h x (List.mem_of_mem_filter hx)
  | typingStart c arg now =>
    obtain ⟨h1, h2⟩ := onTypingStart_frame s s' c arg now out hs
    rw [h1, h2]; exact h
  | typingStop c arg =>
    obtain ⟨h1, h2⟩ := onTypingStop_frame s s' c arg out hs
    rw [h1, h2]; exact h
  | sendMessage c messageData =>
    simp only [stepWith, step, Except.ok.injEq] at hs
    have h1 := onSendMessage_state s c messageData
    rw [hs] at h1
    simp only at h1
    rw [h1]; exact h
  | disconnect c =>
    simp only [stepWith, step, Except.ok.injEq] at hs
    obtain ⟨h1, h2⟩ := onDisconnect_frame
      { s with rooms := leaveAll s.rooms c,
               sockets := s.sockets.filter (fun x => decide (x ≠ c)) } c
    rw [hs] at h1 h2
    simp only at h1 h2
    intro x hx
    rw [h1] at hx
    rw [h2]
    have hxs := h x (hkeep s.rooms c x hx)
    have hne : x.1 ≠ c := by
      intro heq
      apply hclear s.rooms c x.2
      have hxe : x = (c, x.2) := Prod.ext heq rfl
      rw [← hxe]
      exact hx
    exact List.mem_filter.mpr ⟨hxs, by simpa using hne⟩
  | sweep now => cases hs; exact h

theorem members_open (leaveAll : List (SocketId × JSVal) → SocketId → List (SocketId × JSVal))
    (hclear : ∀ rooms c r, (c, r) ∉ leaveAll rooms c)
    (hkeep : ∀ rooms c x, x ∈ leaveAll rooms c → x ∈ rooms)
    (s : State) (hr : ReachableWith leaveAll s) : ∀ x ∈ s.rooms, x.1 ∈ s.sockets := by
  induction hr with
  | init => intro x hx; simp [State.init] at hx
  | step e _ hen hs ih => exact members_open_step leaveAll hclear hkeep _ _ _ e hen hs ih

/-- C17: room membership lives in the transport, and what the transport does to
the rooms of a closing socket is the parameter `leaveAll`.  For every transport
whose teardown removes the closing socket from all rooms and adds no
membership, every room-membership entry of every reachable state belongs to an
open socket: the handlers of `server.js` subscribe only the open socket an event
arrived on.  So a socket that is not open is a member of no room and no
room-scoped emission is delivered to it, and right after the disconnect of `c`,
`c` is not open and in no room. -/
theorem membership_belongs_to_open_sockets
    (leaveAll : List (SocketId × JSVal) → SocketId → List (SocketId × JSVal))
    (hclear : ∀ rooms c r, (c, r) ∉ leaveAll rooms c)
    (hkeep : ∀ rooms c x, x ∈ leaveAll rooms c → x ∈ rooms)
    (s : State) (hr : ReachableWith leaveAll s) :
    (∀ x ∈ s.rooms, x.1 ∈ s.sockets) ∧
      (∀ c, c ∉ s.sockets → ∀ r, isMember s.rooms r c = false ∧
        delivers s (.room r) c = false ∧ ∀ x, delivers s (.roomExcept r x) c = false) ∧
      (∀ c, ∃ s' out, stepWith leaveAll s (.disconnect c) = .ok (s', out) ∧
        c ∉ s'.sockets ∧ ∀ r, isMember s'.rooms r c = false) := by
  have hinv := members_open leaveAll hclear hkeep s hr
  refine ⟨hinv, ?_, ?_⟩
  · intro c hc r
    have hm : isMember s.rooms r c = false := by
      simp only [isMember, decide_eq_false_iff_not]
      exact fun hmem => hc (hinv (c, r) hmem)
    refine ⟨hm, ?_, fun x => ?_⟩
    · simp only [delivers]; exact hm
    · simp only [delivers, hm, Bool.false_and]
  · intro c
    obtain ⟨h1, h2⟩ := onDisconnect_frame
      { s with rooms := leaveAll s.rooms c,
               sockets := s.sockets.filter (fun x => decide (x ≠ c)) } c
    refine ⟨(onDisconnect
        { s with rooms := leaveAll s.rooms c,
                 sockets := s.sockets.filter (fun x => decide (x ≠ c)) } c).1,
      (onDisconnect
        { s with rooms := leaveAll s.rooms c,
                 sockets := s.sockets.filter (fun x => decide (x ≠ c)) } c).2, rfl, ?_, ?_⟩
    · rw [h2]
      simp
    · intro r
      rw [h1]
      simp only [isMember, decide_eq_false_iff_not]
      exact hclear s.rooms c r

theorem leaveAllRooms_clears (rooms : List (SocketId × JSVal)) (c : SocketId) (r : JSVal) :
    (c, r) ∉ leaveAllRooms rooms c := by
  simp [leaveAllRooms]

theorem leaveAllRooms_keeps (rooms : List (SocketId × JSVal)) (c : SocketId)
    (x : SocketId × JSVal) (h : x ∈ leaveAllRooms rooms c) : x ∈ rooms :=
  List.mem_of_mem_filter h

theorem reachable_oneInRoom : ReachableWith leaveAllRooms oneInRoom :=
  @ReachableWith.step leaveAllRooms ⟨JSMap.empty, JSMap.empty, [], ["c"]⟩ oneInRoom []
    (.joinChat "c" (.str "r"))
    (@ReachableWith.step leaveAllRooms State.init ⟨JSMap.empty, JSMap.empty, [], ["c"]⟩ []
      (.connect "c") ReachableWith.init (by decide) rfl)
    (by decide) rfl

theorem membership_belongs_to_open_sockets_witness :
    (∀ x ∈ oneInRoom.rooms, x.1 ∈ oneInRoom.sockets) ∧
      (∀ c, c ∉ oneInRoom.sockets → ∀ r, isMember oneInRoom.rooms r c = false ∧
        delivers oneInRoom (.room r) c = false ∧
        ∀ x, delivers oneInRoom (.roomExcept r x) c = false) ∧
      (∀ c, ∃ s' out, stepWith leaveAllRooms oneInRoom (.disconnect c) = .ok (s', out) ∧
        c ∉ s'.sockets ∧ ∀ r, isMember s'.rooms r c = false) :=
  membership_belongs_to_open_sockets leaveAllRooms leaveAllRooms_clears leaveAllRooms_keeps
    oneInRoom reachable_oneInRoom

end Relay
